import Mathlib

/-! Gear scene: procedural cylinder mesh, gear kinematics, tooth placement, star field.

A shallow embedding of `src/multiple_lights.cpp`, followed by the properties proved of it.

Conventions of the embedding.

* `float` / `double` values are elements of a linear ordered field `α`, and decimal
  literals such as `0.5f` denote the corresponding rational.  The approximations of π
  (`PI = 3.14159265358979323846f`, `glm::pi<T>()`), the constant
  `TWO_PI = 6.283185307179586` and the library functions `cos`, `sin` are parameters.
  Every definition is therefore executable (for instance over `ℚ`), and the theorems
  about exact real arithmetic instantiate the parameters with `Real.pi`, `2 * Real.pi`,
  `Real.cos` and `Real.sin`.
* `int` values are unbounded integers (`Int`); container sizes are natural numbers.
  C++ `%` on `int` is `Int.tmod` (truncated division).
* A loop `for (int i = 0; i < n; i++)` is `forRange n.toNat s body`, a left fold of the
  loop body over `0, 1, …, n-1` threading the mutated state `s`.
* `glm::mat4` is stored by columns, as in glm; `glm::translate`, `glm::rotate` and
  `glm::scale` follow glm's column formulas.
* Calls into OpenGL are not modelled, except that `DrawGearTeeth` returns the list of its
  draw submissions (model matrix and vertex range).
-/

namespace GearScene

/-! ## Loops and buffers -/

/-- The loop `for (int i = 0; i < n; i++) s = body(s, i)`. -/
def forRange {σ : Type} (n : Nat) (s : σ) (body : σ → Nat → σ) : σ :=
  (List.range n).foldl body s

/-- The `k`-th group of `c` consecutive entries of a buffer: vertex `k` of a float buffer
with stride 8 is `block 8 V k`, triangle `k` of an index buffer is `block 3 I k`. -/
def block {β : Type} (c : Nat) (l : List β) (k : Nat) : List β :=
  (l.drop (c * k)).take c

/-! ## `CreateCylinderMesh` (source lines 38-128) -/

/-- The CPU-side result of `CreateCylinderMesh`: the float buffer `V` uploaded to the
vertex buffer object, the index buffer `I` and the field `Mesh::indexCount`. -/
structure CylinderMesh (α : Type) where
  V : List α
  I : List Int
  indexCount : Int

/-- The eight floats of one vertex: position, normal, texture coordinates. -/
def vtx {α : Type} (x y z nx ny nz u v : α) : List α := [x, y, z, nx, ny, nz, u, v]

/-- The lambda `push` of `CreateCylinderMesh`: appends the 8 floats of one vertex. -/
def push {α : Type} (V : List α) (x y z nx ny nz u v : α) : List α :=
  V ++ [x, y, z] ++ [nx, ny, nz] ++ [u, v]

/-- The value `(int)(V.size() / 8)`: number of vertices pushed so far. -/
def vertexCount {α : Type} (V : List α) : Int := ((V.length / 8 : Nat) : Int)

/-- Embedding of `CreateCylinderMesh(int segments)`. -/
def CreateCylinderMesh {α : Type} [LinearOrderedField α] (PI : α) (cos sin : α → α)
    (segments : Int) : CylinderMesh α :=
  let V : List α := []
  let I : List Int := []
  let halfZ : α := 0.5
  -- TOP CAP
  let topCenter : Int := vertexCount V
  let V := push V 0 0 halfZ 0 0 1 0.5 0.5
  let topRingStart : Int := vertexCount V
  let V := forRange segments.toNat V fun V i =>
    let a : α := (i : α) / (segments : α) * 2 * PI
    let x := cos a
    let y := sin a
    push V x y halfZ 0 0 1 (x * 0.5 + 0.5) (y * 0.5 + 0.5)
  let I := forRange segments.toNat I fun I i =>
    I ++ [topCenter] ++ [topRingStart + i] ++ [topRingStart + Int.tmod (i + 1) segments]
  -- BOTTOM CAP
  let bottomCenter : Int := vertexCount V
  let V := push V 0 0 (-halfZ) 0 0 (-1) 0.5 0.5
  let bottomRingStart : Int := vertexCount V
  let V := forRange segments.toNat V fun V i =>
    let a : α := (i : α) / (segments : α) * 2 * PI
    let x := cos a
    let y := sin a
    push V x y (-halfZ) 0 0 (-1) (x * 0.5 + 0.5) (y * 0.5 + 0.5)
  let I := forRange segments.toNat I fun I i =>
    I ++ [bottomCenter] ++ [bottomRingStart + Int.tmod (i + 1) segments]
      ++ [bottomRingStart + i]
  -- SIDE
  let sideStart : Int := vertexCount V
  let V := forRange (segments + 1).toNat V fun V i =>
    let a : α := (i : α) / (segments : α) * 2 * PI
    let x := cos a
    let y := sin a
    let u : α := (i : α) / (segments : α)
    let V := push V x y halfZ x y 0 u 1.0
    push V x y (-halfZ) x y 0 u 0.0
  let I := forRange segments.toNat I fun I i =>
    let t0 : Int := sideStart + i * 2
    let b0 : Int := t0 + 1
    let t1 : Int := sideStart + (i + 1) * 2
    let b1 : Int := t1 + 1
    I ++ [t0] ++ [b0] ++ [t1] ++ [t1] ++ [b0] ++ [b1]
  { V := V, I := I, indexCount := (I.length : Int) }

/-! ### Closed forms of the pieces pushed by the loops of `CreateCylinderMesh` -/

/-- Floats pushed by iteration `i` of a cap ring loop, at height `z` with normal
`(0, 0, nz)`. -/
def capRingVertex {α : Type} [LinearOrderedField α] (PI : α) (cos sin : α → α)
    (segments : Int) (z nz : α) (i : Nat) : List α :=
  vtx (cos ((i : α) / (segments : α) * 2 * PI)) (sin ((i : α) / (segments : α) * 2 * PI)) z
    0 0 nz
    (cos ((i : α) / (segments : α) * 2 * PI) * 0.5 + 0.5)
    (sin ((i : α) / (segments : α) * 2 * PI) * 0.5 + 0.5)

/-- Floats pushed by iteration `i` of the side loop: the top-row vertex, then the
bottom-row vertex. -/
def sideColumn {α : Type} [LinearOrderedField α] (PI : α) (cos sin : α → α)
    (segments : Int) (i : Nat) : List α :=
  vtx (cos ((i : α) / (segments : α) * 2 * PI)) (sin ((i : α) / (segments : α) * 2 * PI)) 0.5
    (cos ((i : α) / (segments : α) * 2 * PI)) (sin ((i : α) / (segments : α) * 2 * PI)) 0
    ((i : α) / (segments : α)) 1.0
  ++
  vtx (cos ((i : α) / (segments : α) * 2 * PI)) (sin ((i : α) / (segments : α) * 2 * PI)) (-0.5)
    (cos ((i : α) / (segments : α) * 2 * PI)) (sin ((i : α) / (segments : α) * 2 * PI)) 0
    ((i : α) / (segments : α)) 0.0

/-- Indices pushed by iteration `i` of the top-cap index loop. -/
def topCapTriangle (segments : Int) (i : Nat) : List Int :=
  [0, 1 + (i : Int), 1 + Int.tmod ((i : Int) + 1) segments]

/-- Indices pushed by iteration `i` of the bottom-cap index loop. -/
def bottomCapTriangle (segments : Int) (i : Nat) : List Int :=
  [(segments.toNat : Int) + 1, (segments.toNat : Int) + 2 + Int.tmod ((i : Int) + 1) segments,
    (segments.toNat : Int) + 2 + (i : Int)]

/-- Indices pushed by iteration `i` of the side index loop (two triangles). -/
def sideQuad (segments : Int) (i : Nat) : List Int :=
  [2 * (segments.toNat : Int) + 2 + (i : Int) * 2,
   2 * (segments.toNat : Int) + 2 + (i : Int) * 2 + 1,
   2 * (segments.toNat : Int) + 2 + ((i : Int) + 1) * 2,
   2 * (segments.toNat : Int) + 2 + ((i : Int) + 1) * 2,
   2 * (segments.toNat : Int) + 2 + (i : Int) * 2 + 1,
   2 * (segments.toNat : Int) + 2 + ((i : Int) + 1) * 2 + 1]

/-! ## Vectors and matrices (the parts of glm the program uses) -/

/-- The type `glm::vec3`. -/
structure Vec3 (α : Type) where
  x : α
  y : α
  z : α

/-- The type `glm::vec4`. -/
structure Vec4 (α : Type) where
  x : α
  y : α
  z : α
  w : α

/-- Componentwise sum of two `vec4`. -/
def Vec4.add {α : Type} [LinearOrderedField α] (a b : Vec4 α) : Vec4 α :=
  ⟨a.x + b.x, a.y + b.y, a.z + b.z, a.w + b.w⟩

/-- The product `v * s` of a `vec4` and a scalar. -/
def Vec4.scale {α : Type} [LinearOrderedField α] (a : Vec4 α) (s : α) : Vec4 α :=
  ⟨a.x * s, a.y * s, a.z * s, a.w * s⟩

/-- The type `glm::mat4`, stored by columns: `c0 = m[0]`, …, `c3 = m[3]`. -/
structure Mat4 (α : Type) where
  c0 : Vec4 α
  c1 : Vec4 α
  c2 : Vec4 α
  c3 : Vec4 α

/-- The matrix `glm::mat4(1.0f)`. -/
def Mat4.identity {α : Type} [LinearOrderedField α] : Mat4 α :=
  ⟨⟨1, 0, 0, 0⟩, ⟨0, 1, 0, 0⟩, ⟨0, 0, 1, 0⟩, ⟨0, 0, 0, 1⟩⟩

/-- The product `m * v` of a matrix and a column vector. -/
def Mat4.mulVec {α : Type} [LinearOrderedField α] (m : Mat4 α) (v : Vec4 α) : Vec4 α :=
  (((m.c0.scale v.x).add (m.c1.scale v.y)).add (m.c2.scale v.z)).add (m.c3.scale v.w)

/-- The function `glm::translate(m, v)`:
`Result[3] = m[0] * v[0] + m[1] * v[1] + m[2] * v[2] + m[3]`. -/
def translate {α : Type} [LinearOrderedField α] (m : Mat4 α) (v : Vec3 α) : Mat4 α :=
  { m with c3 := (((m.c0.scale v.x).add (m.c1.scale v.y)).add (m.c2.scale v.z)).add m.c3 }

/-- The function `glm::rotate(m, angle, v)` for an axis `v` of length one (glm first
replaces `v` by `normalize(v)`; the program only passes `(0, 0, 1)`). -/
def rotate {α : Type} [LinearOrderedField α] (cos sin : α → α) (m : Mat4 α) (angle : α)
    (axis : Vec3 α) : Mat4 α :=
  let c := cos angle
  let s := sin angle
  let temp : Vec3 α := ⟨(1 - c) * axis.x, (1 - c) * axis.y, (1 - c) * axis.z⟩
  let r00 := c + temp.x * axis.x
  let r01 := temp.x * axis.y + s * axis.z
  let r02 := temp.x * axis.z - s * axis.y
  let r10 := temp.y * axis.x - s * axis.z
  let r11 := c + temp.y * axis.y
  let r12 := temp.y * axis.z + s * axis.x
  let r20 := temp.z * axis.x + s * axis.y
  let r21 := temp.z * axis.y - s * axis.x
  let r22 := c + temp.z * axis.z
  { c0 := ((m.c0.scale r00).add (m.c1.scale r01)).add (m.c2.scale r02)
    c1 := ((m.c0.scale r10).add (m.c1.scale r11)).add (m.c2.scale r12)
    c2 := ((m.c0.scale r20).add (m.c1.scale r21)).add (m.c2.scale r22)
    c3 := m.c3 }

/-- The function `glm::scale(m, v)`: the first three columns are scaled. -/
def scale {α : Type} [LinearOrderedField α] (m : Mat4 α) (v : Vec3 α) : Mat4 α :=
  { c0 := m.c0.scale v.x, c1 := m.c1.scale v.y, c2 := m.c2.scale v.z, c3 := m.c3 }

/-! ## The unit cube (source lines 232-275) -/

/-- The array `vertices` of `main`: 36 vertices of 8 floats. -/
def vertices {α : Type} [LinearOrderedField α] : List α := [
  -0.5, -0.5, -0.5,  0.0,  0.0, -1.0,  0.0,  0.0,
   0.5, -0.5, -0.5,  0.0,  0.0, -1.0,  1.0,  0.0,
   0.5,  0.5, -0.5,  0.0,  0.0, -1.0,  1.0,  1.0,
   0.5,  0.5, -0.5,  0.0,  0.0, -1.0,  1.0,  1.0,
  -0.5,  0.5, -0.5,  0.0,  0.0, -1.0,  0.0,  1.0,
  -0.5, -0.5, -0.5,  0.0,  0.0, -1.0,  0.0,  0.0,

  -0.5, -0.5,  0.5,  0.0,  0.0,  1.0,  0.0,  0.0,
   0.5, -0.5,  0.5,  0.0,  0.0,  1.0,  1.0,  0.0,
   0.5,  0.5,  0.5,  0.0,  0.0,  1.0,  1.0,  1.0,
   0.5,  0.5,  0.5,  0.0,  0.0,  1.0,  1.0,  1.0,
  -0.5,  0.5,  0.5,  0.0,  0.0,  1.0,  0.0,  1.0,
  -0.5, -0.5,  0.5,  0.0,  0.0,  1.0,  0.0,  0.0,

  -0.5,  0.5,  0.5, -1.0,  0.0,  0.0,  1.0,  0.0,
  -0.5,  0.5, -0.5, -1.0,  0.0,  0.0,  1.0,  1.0,
  -0.5, -0.5, -0.5, -1.0,  0.0,  0.0,  0.0,  1.0,
  -0.5, -0.5, -0.5, -1.0,  0.0,  0.0,  0.0,  1.0,
  -0.5, -0.5,  0.5, -1.0,  0.0,  0.0,  0.0,  0.0,
  -0.5,  0.5,  0.5, -1.0,  0.0,  0.0,  1.0,  0.0,

   0.5,  0.5,  0.5,  1.0,  0.0,  0.0,  1.0,  0.0,
   0.5,  0.5, -0.5,  1.0,  0.0,  0.0,  1.0,  1.0,
   0.5, -0.5, -0.5,  1.0,  0.0,  0.0,  0.0,  1.0,
   0.5, -0.5, -0.5,  1.0,  0.0,  0.0,  0.0,  1.0,
   0.5, -0.5,  0.5,  1.0,  0.0,  0.0,  0.0,  0.0,
   0.5,  0.5,  0.5,  1.0,  0.0,  0.0,  1.0,  0.0,

  -0.5, -0.5, -0.5,  0.0, -1.0,  0.0,  0.0,  1.0,
   0.5, -0.5, -0.5,  0.0, -1.0,  0.0,  1.0,  1.0,
   0.5, -0.5,  0.5,  0.0, -1.0,  0.0,  1.0,  0.0,
   0.5, -0.5,  0.5,  0.0, -1.0,  0.0,  1.0,  0.0,
  -0.5, -0.5,  0.5,  0.0, -1.0,  0.0,  0.0,  0.0,
  -0.5, -0.5, -0.5,  0.0, -1.0,  0.0,  0.0,  1.0,

  -0.5,  0.5, -0.5,  0.0,  1.0,  0.0,  0.0,  1.0,
   0.5,  0.5, -0.5,  0.0,  1.0,  0.0,  1.0,  1.0,
   0.5,  0.5,  0.5,  0.0,  1.0,  0.0,  1.0,  0.0,
   0.5,  0.5,  0.5,  0.0,  1.0,  0.0,  1.0,  0.0,
  -0.5,  0.5,  0.5,  0.0,  1.0,  0.0,  0.0,  0.0,
  -0.5,  0.5, -0.5,  0.0,  1.0,  0.0,  0.0,  1.0]

/-- Position attribute of cube vertex `k` (attribute 0: three floats at offset 0 of a
stride of 8 floats), as the homogeneous point `(x, y, z, 1)` the vertex stage multiplies
by the model matrix. -/
def cubePoint {α : Type} [LinearOrderedField α] (k : Nat) : Vec4 α :=
  ⟨(vertices (α := α)).getD (8 * k) 0, (vertices (α := α)).getD (8 * k + 1) 0,
    (vertices (α := α)).getD (8 * k + 2) 0, 1⟩

/-! ## `DrawGearTeeth` (source lines 164-181) -/

/-- One submission `shader.setMat4("model", model); glDrawArrays(GL_TRIANGLES, first, count)`. -/
structure DrawCall (α : Type) where
  model : Mat4 α
  first : Nat
  count : Nat

/-- Embedding of `DrawGearTeeth`: the list of draw submissions it issues, in order. -/
def DrawGearTeeth {α : Type} [LinearOrderedField α] (PI : α) (cos sin : α → α)
    (parent : Mat4 α) (center : Vec3 α) (N : Int)
    (baseRadius toothLen toothHeight thick angleRad : α) : List (DrawCall α) :=
  forRange N.toNat [] fun calls i =>
    let a : α := angleRad + (i : α) * (2.0 * PI / (N : α))
    let model := parent
    let model := translate model center
    let model := rotate cos sin model a ⟨0, 0, 1⟩
    let offset : α := baseRadius + toothLen * 0.5
    let model := translate model ⟨offset, 0, 0⟩
    let model := scale model ⟨toothLen, toothHeight, thick⟩
    calls ++ [{ model := model, first := 0, count := 36 }]

/-- Model matrix of the tooth drawn at rotation `a`: the body of the loop of
`DrawGearTeeth` for a given angle. -/
def toothModel {α : Type} [LinearOrderedField α] (cos sin : α → α)
    (parent : Mat4 α) (center : Vec3 α)
    (baseRadius toothLen toothHeight thick a : α) : Mat4 α :=
  scale (translate (rotate cos sin (translate parent center) a ⟨0, 0, 1⟩)
    ⟨baseRadius + toothLen * 0.5, 0, 0⟩) ⟨toothLen, toothHeight, thick⟩

/-- Signed distance of the point `p` from `center`, measured along the radial direction
`(cos a, sin a, 0)`. -/
def radialCoord {α : Type} [LinearOrderedField α] (cos sin : α → α) (center : Vec3 α)
    (a : α) (p : Vec4 α) : α :=
  (p.x - center.x) * cos a + (p.y - center.y) * sin a + (p.z - center.z) * 0

/-! ## Gear parameters and kinematics (source lines 130-149, 500-545) -/

/-- Teeth count of gear 1. -/
def N1 : Int := 18
/-- Teeth count of gear 2. -/
def N2 : Int := 28
/-- Teeth count of gear 3. -/
def N3 : Int := 22
/-- Teeth count of gear 4. -/
def N4 : Int := 7
/-- Teeth count of gear 5. -/
def N5 : Int := 11
/-- Teeth count of gear 6. -/
def N6 : Int := 8
/-- Teeth count of gear 7. -/
def N7 : Int := 11

/-- The function `std::fmod(x, y)`: `x - n * y` where `n` is the quotient `x / y` with its
fractional part truncated (rounded toward zero), so that the result has the sign of `x`. -/
def fmod {α : Type} [LinearOrderedField α] [FloorRing α] (x y : α) : α :=
  x - ((if 0 ≤ x / y then ⌊x / y⌋ else ⌈x / y⌉ : Int) : α) * y

/-- One value per gear (`ang1` … `ang7`). -/
structure GearAngles (α : Type) where
  ang1 : α
  ang2 : α
  ang3 : α
  ang4 : α
  ang5 : α
  ang6 : α
  ang7 : α

/-- The constant `omega1` (rad/s). -/
def omega1 {α : Type} [LinearOrderedField α] : α := 0.5

/-- The value `phase2 = pi / N2` ("half of tooth gear"). -/
def phase2 {α : Type} [LinearOrderedField α] (PI : α) : α := PI / (N2 : α)
/-- The value `phase5 = pi / N5`. -/
def phase5 {α : Type} [LinearOrderedField α] (PI : α) : α := PI / (N5 : α)
/-- The value `phase7 = pi / N7`. -/
def phase7 {α : Type} [LinearOrderedField α] (PI : α) : α := PI / (N7 : α)

/-- The angles `ang1` … `ang7` as first assigned at time `t` (source lines 508-514),
before the wrap. -/
def spinAngles {α : Type} [LinearOrderedField α] (PI t : α) : GearAngles α :=
  { ang1 := omega1 * t
    ang2 := -(omega1 * ((N1 : α) / (N2 : α))) * t
    ang3 := (-(omega1 * ((N1 : α) / (N3 : α))) * t) + phase2 PI
    ang4 := (omega1 * ((N1 : α) / (N4 : α))) * t
    ang5 := (omega1 * ((N1 : α) / (N5 : α))) * t + phase5 PI
    ang6 := (omega1 * ((N1 : α) / (N6 : α))) * t
    ang7 := (omega1 * ((N1 : α) / (N7 : α))) * t + phase7 PI }

/-- The coefficients of `t` in `ang1` … `ang7`: the angular velocities of the gears. -/
def gearOmega {α : Type} [LinearOrderedField α] : GearAngles α :=
  { ang1 := omega1
    ang2 := -(omega1 * ((N1 : α) / (N2 : α)))
    ang3 := -(omega1 * ((N1 : α) / (N3 : α)))
    ang4 := omega1 * ((N1 : α) / (N4 : α))
    ang5 := omega1 * ((N1 : α) / (N5 : α))
    ang6 := omega1 * ((N1 : α) / (N6 : α))
    ang7 := omega1 * ((N1 : α) / (N7 : α)) }

/-- The wrap step "prevent oversize" (source lines 517-523): `ang_i = fmod(ang_i, TWO_PI)`. -/
def wrapAngles {α : Type} [LinearOrderedField α] [FloorRing α] (TWO_PI : α)
    (g : GearAngles α) : GearAngles α :=
  { ang1 := fmod g.ang1 TWO_PI
    ang2 := fmod g.ang2 TWO_PI
    ang3 := fmod g.ang3 TWO_PI
    ang4 := fmod g.ang4 TWO_PI
    ang5 := fmod g.ang5 TWO_PI
    ang6 := fmod g.ang6 TWO_PI
    ang7 := fmod g.ang7 TWO_PI }

/-- The angles `ang1` … `ang7` after the wrap step, at time `t`. -/
def wrappedAngles {α : Type} [LinearOrderedField α] [FloorRing α] (PI TWO_PI t : α) :
    GearAngles α :=
  wrapAngles TWO_PI (spinAngles PI t)

/-- The angle arguments of the seven `DrawGearTeeth` calls (source lines 527-545): the
wrapped angles, gear 2 receiving `ang2 + phase2`. -/
def drawnAngles {α : Type} [LinearOrderedField α] [FloorRing α] (PI TWO_PI t : α) :
    GearAngles α :=
  let g := wrappedAngles PI TWO_PI t
  { g with ang2 := g.ang2 + phase2 PI }

/-! ## Vertex attributes and face normals of an indexed mesh -/

/-- Difference of two `vec3`. -/
def Vec3.sub {α : Type} [LinearOrderedField α] (a b : Vec3 α) : Vec3 α :=
  ⟨a.x - b.x, a.y - b.y, a.z - b.z⟩

/-- Cross product of two `vec3`. -/
def Vec3.cross {α : Type} [LinearOrderedField α] (a b : Vec3 α) : Vec3 α :=
  ⟨a.y * b.z - a.z * b.y, a.z * b.x - a.x * b.z, a.x * b.y - a.y * b.x⟩

/-- Dot product of two `vec3`. -/
def Vec3.dot {α : Type} [LinearOrderedField α] (a b : Vec3 α) : α :=
  a.x * b.x + a.y * b.y + a.z * b.z

/-- Attribute 0 of vertex `k` of a float buffer with the layout set up by
`glVertexAttribPointer(0, 3, GL_FLOAT, GL_FALSE, 8 * sizeof(float), 0)`: the position. -/
def positionAt {α : Type} [LinearOrderedField α] (V : List α) (k : Int) : Vec3 α :=
  match block 8 V k.toNat with
  | x :: y :: z :: _ => ⟨x, y, z⟩
  | _ => ⟨0, 0, 0⟩

/-- Attribute 1 of vertex `k` (three floats at offset 3 of the stride of 8): the normal. -/
def normalAt {α : Type} [LinearOrderedField α] (V : List α) (k : Int) : Vec3 α :=
  match block 8 V k.toNat with
  | _ :: _ :: _ :: nx :: ny :: nz :: _ => ⟨nx, ny, nz⟩
  | _ => ⟨0, 0, 0⟩

/-- Right-hand-rule normal `(p1 - p0) × (p2 - p0)` of the triangle `(p0, p1, p2)`. -/
def faceNormal {α : Type} [LinearOrderedField α] (p0 p1 p2 : Vec3 α) : Vec3 α :=
  (p1.sub p0).cross (p2.sub p0)

/-- The triangle `(i0, i1, i2)` of the mesh `(V, I)` faces its stored normals: the
right-hand-rule normal of its three positions has a strictly positive dot product with the
normal attribute of each of its three vertices. -/
def FacesOutward {α : Type} [LinearOrderedField α] (V : List α) (i0 i1 i2 : Int) : Prop :=
  0 < (faceNormal (positionAt V i0) (positionAt V i1) (positionAt V i2)).dot (normalAt V i0)
  ∧ 0 < (faceNormal (positionAt V i0) (positionAt V i1) (positionAt V i2)).dot (normalAt V i1)
  ∧ 0 < (faceNormal (positionAt V i0) (positionAt V i1) (positionAt V i2)).dot (normalAt V i2)

instance {α : Type} [LinearOrderedField α] (V : List α) (i0 i1 i2 : Int) :
    Decidable (FacesOutward V i0 i1 i2) := by
  unfold FacesOutward
  infer_instance

/-! ## The star field (source lines 339-375) -/

/-- The function `glm::radians(degrees)`. -/
def radians {α : Type} [LinearOrderedField α] (PI degrees : α) : α :=
  degrees * (PI / 180)

/-- Position of a star with polar angle `theta` and zenith angle `phi` (source lines
344-353). -/
def starPosition {α : Type} [LinearOrderedField α] (cos sin : α → α) (theta phi : α) :
    Vec3 α :=
  let rad : α := 30.0
  let x := rad * sin phi * cos theta
  let y := rad * cos phi
  let z := rad * sin phi * sin theta
  ⟨x, y, z⟩

/-- Colour of a star of hue `hue` (source lines 357-373): HSV to RGB with `s = 0.8`,
`v = 1.0`. -/
def starColor {α : Type} [LinearOrderedField α] [FloorRing α] (hue : α) : Vec3 α :=
  let s : α := 0.8
  let v : α := 1.0
  let c := v * s
  let d := c * (1 - |fmod (hue * 6.0) 2.0 - 1|)
  let m := v - c
  let rgb : Vec3 α :=
    if hue < 1.0 / 6.0 then ⟨c, d, 0⟩
    else if hue < 2.0 / 6.0 then ⟨d, c, 0⟩
    else if hue < 3.0 / 6.0 then ⟨0, c, d⟩
    else if hue < 4.0 / 6.0 then ⟨0, d, c⟩
    else if hue < 5.0 / 6.0 then ⟨d, 0, c⟩
    else ⟨c, 0, d⟩
  ⟨rgb.x + m, rgb.y + m, rgb.z + m⟩

/-- One iteration of the star loop, given the three values returned by `rand()`: the
position and the colour stored in `starPositions[i]` and `starColors[i]`. -/
def makeStar {α : Type} [LinearOrderedField α] [FloorRing α] (PI : α) (cos sin : α → α)
    (r1 r2 r3 : Int) : Vec3 α × Vec3 α :=
  let theta := radians PI ((Int.tmod r1 360 : Int) : α)
  let phi := radians PI ((Int.tmod r2 180 : Int) : α)
  let hue : α := ((Int.tmod r3 360 : Int) : α) / 360.0
  (starPosition cos sin theta phi, starColor hue)

/-- The angle `a` points in the same direction as the angle `b`: they differ by an integer
multiple of the full turn `TWO_PI` and have the same cosine and sine, which is all that
`glm::rotate` reads of an angle. -/
def SameDirection {α : Type} [LinearOrderedField α] (cos sin : α → α) (TWO_PI a b : α) :
    Prop :=
  (∃ k : Int, a = b + (k : α) * TWO_PI) ∧ cos a = cos b ∧ sin a = sin b

/-! # Properties -/

/-! ## Loops that append -/

theorem forRange_append {β : Type} (f : Nat → List β) (n : Nat) (s : List β) :
    forRange n s (fun s i => s ++ f i) = s ++ (List.range n).flatMap f := by
  induction n with
  | zero => simp [forRange]
  | succ k ih =>
    unfold forRange at ih ⊢
    rw [List.range_succ, List.foldl_append, ih]
    simp [List.flatMap_append]

theorem length_flatMap_const {β : Type} (f : Nat → List β) (c : Nat)
    (hf : ∀ i, (f i).length = c) (l : List Nat) :
    (l.flatMap f).length = c * l.length := by
  induction l with
  | nil => simp
  | cons a t ih => simp [List.flatMap_cons, ih, hf, Nat.mul_succ, Nat.add_comm]

theorem push_eq {α : Type} (V : List α) (x y z nx ny nz u v : α) :
    push V x y z nx ny nz u v = V ++ vtx x y z nx ny nz u v := by
  simp [push, vtx]

theorem vertexCount_of_length {α : Type} (V : List α) (k : Nat) (h : V.length = 8 * k) :
    vertexCount V = (k : Int) := by
  simp [vertexCount, h]

theorem length_vtx {α : Type} (x y z nx ny nz u v : α) :
    (vtx x y z nx ny nz u v).length = 8 := rfl

/-! ## Closed form of the buffers of `CreateCylinderMesh` -/

section Cylinder

variable {α : Type} [LinearOrderedField α] (PI : α) (cos sin : α → α) (segments : Int)

theorem length_capRing (z nz : α) (n : Nat) :
    ((List.range n).flatMap (capRingVertex PI cos sin segments z nz)).length = 8 * n := by
  rw [length_flatMap_const (capRingVertex PI cos sin segments z nz) 8 (fun _ => rfl),
    List.length_range]

theorem length_sideColumns (n : Nat) :
    ((List.range n).flatMap (sideColumn PI cos sin segments)).length = 8 * (2 * n) := by
  rw [length_flatMap_const (sideColumn PI cos sin segments) 16 (fun _ => rfl),
    List.length_range]
  omega

theorem CreateCylinderMesh_V :
    (CreateCylinderMesh PI cos sin segments).V =
      vtx 0 0 0.5 0 0 1 0.5 0.5
      ++ (List.range segments.toNat).flatMap (capRingVertex PI cos sin segments 0.5 1)
      ++ vtx 0 0 (-0.5) 0 0 (-1) 0.5 0.5
      ++ (List.range segments.toNat).flatMap (capRingVertex PI cos sin segments (-0.5) (-1))
      ++ (List.range (segments + 1).toNat).flatMap (sideColumn PI cos sin segments) := by
  unfold CreateCylinderMesh
  simp only [push_eq, List.append_assoc, forRange_append, List.nil_append]
  rfl

theorem CreateCylinderMesh_I :
    (CreateCylinderMesh PI cos sin segments).I =
      (List.range segments.toNat).flatMap (topCapTriangle segments)
      ++ (List.range segments.toNat).flatMap (bottomCapTriangle segments)
      ++ (List.range segments.toNat).flatMap (sideQuad segments) := by
  have h0 : vertexCount ([] : List α) = 0 := vertexCount_of_length _ 0 rfl
  have h1 : vertexCount (vtx (0 : α) 0 0.5 0 0 1 0.5 0.5) = 1 :=
    vertexCount_of_length _ 1 rfl
  have h2 : vertexCount (vtx (0 : α) 0 0.5 0 0 1 0.5 0.5
      ++ (List.range segments.toNat).flatMap (capRingVertex PI cos sin segments 0.5 1))
      = (segments.toNat : Int) + 1 := by
    rw [vertexCount_of_length _ (segments.toNat + 1)]
    · push_cast; ring
    · simp only [List.length_append, length_capRing, length_vtx]; omega
  have h3 : vertexCount (vtx (0 : α) 0 0.5 0 0 1 0.5 0.5
      ++ ((List.range segments.toNat).flatMap (capRingVertex PI cos sin segments 0.5 1)
      ++ vtx 0 0 (-0.5) 0 0 (-1) 0.5 0.5))
      = (segments.toNat : Int) + 2 := by
    rw [vertexCount_of_length _ (segments.toNat + 2)]
    · push_cast; ring
    · simp only [List.length_append, length_capRing, length_vtx]; omega
  have h4 : vertexCount (vtx (0 : α) 0 0.5 0 0 1 0.5 0.5
      ++ ((List.range segments.toNat).flatMap (capRingVertex PI cos sin segments 0.5 1)
      ++ (vtx 0 0 (-0.5) 0 0 (-1) 0.5 0.5
      ++ (List.range segments.toNat).flatMap
          (capRingVertex PI cos sin segments (-0.5) (-1)))))
      = 2 * (segments.toNat : Int) + 2 := by
    rw [vertexCount_of_length _ (2 * segments.toNat + 2)]
    · push_cast; ring
    · simp only [List.length_append, length_capRing, length_vtx]; omega
  unfold CreateCylinderMesh
  simp only [push_eq, List.append_assoc, forRange_append, List.nil_append]
  delta capRingVertex at h2 h3 h4
  simp only [h0, h1, h2, h3, h4]
  rfl

theorem length_I :
    (CreateCylinderMesh PI cos sin segments).I.length = 12 * segments.toNat := by
  rw [CreateCylinderMesh_I]
  simp only [List.length_append]
  rw [length_flatMap_const (topCapTriangle segments) 3 (fun _ => rfl),
    length_flatMap_const (bottomCapTriangle segments) 3 (fun _ => rfl),
    length_flatMap_const (sideQuad segments) 6 (fun _ => rfl), List.length_range]
  omega

theorem length_V :
    (CreateCylinderMesh PI cos sin segments).V.length
      = 8 * (2 + 2 * segments.toNat + 2 * (segments + 1).toNat) := by
  rw [CreateCylinderMesh_V]
  simp only [List.length_append, length_capRing, length_sideColumns, length_vtx]
  omega

theorem indexCount_eq :
    (CreateCylinderMesh PI cos sin segments).indexCount
      = ((CreateCylinderMesh PI cos sin segments).I.length : Int) := rfl

end Cylinder

/-! ## Buffer sizes -/

/-- C1. For every `segments ≥ 3` the index buffer has exactly `12 * segments` entries
(and `indexCount` is that number) and the float buffer `V` consists of exactly
`2 + 2 * segments + 2 * (segments + 1)` vertices of 8 floats each. -/
theorem C1_cylinder_buffer_sizes {α : Type} [LinearOrderedField α] (PI : α)
    (cos sin : α → α) (segments : Int) (h : 3 ≤ segments) :
    ((CreateCylinderMesh PI cos sin segments).I.length : Int) = 12 * segments
    ∧ (CreateCylinderMesh PI cos sin segments).indexCount = 12 * segments
    ∧ ((CreateCylinderMesh PI cos sin segments).V.length : Int)
        = 8 * (2 + 2 * segments + 2 * (segments + 1))
    ∧ vertexCount (CreateCylinderMesh PI cos sin segments).V
        = 2 + 2 * segments + 2 * (segments + 1) := by
  have hn : ((segments.toNat : Nat) : Int) = segments := Int.toNat_of_nonneg (by omega)
  have hn1 : (((segments + 1).toNat : Nat) : Int) = segments + 1 :=
    Int.toNat_of_nonneg (by omega)
  have hV := length_V PI cos sin segments
  refine ⟨?_, ?_, ?_, ?_⟩
  · rw [length_I]; push_cast; rw [hn]
  · rw [indexCount_eq, length_I]; push_cast; rw [hn]
  · rw [hV]; push_cast; rw [hn, hn1]
  · rw [vertexCount_of_length _ _ hV]; push_cast; rw [hn, hn1]

/-- Witness of C1 at `segments = 3` (36 indices, 16 vertices), over the rationals. -/
theorem C1_cylinder_buffer_sizes_witness :
    (3 : Int) ≤ 3
    ∧ ((CreateCylinderMesh (3 : ℚ) id id 3).I.length : Int) = 12 * 3
    ∧ (CreateCylinderMesh (3 : ℚ) id id 3).indexCount = 12 * 3
    ∧ ((CreateCylinderMesh (3 : ℚ) id id 3).V.length : Int) = 8 * (2 + 2 * 3 + 2 * (3 + 1))
    ∧ vertexCount (CreateCylinderMesh (3 : ℚ) id id 3).V = 2 + 2 * 3 + 2 * (3 + 1) :=
  ⟨le_refl 3, C1_cylinder_buffer_sizes (3 : ℚ) id id 3 (le_refl 3)⟩

/-- C2 as stated fails: for `segments = 64` the vertex count is not 258. -/
theorem C2_counterexample :
    ¬ ((CreateCylinderMesh Real.pi Real.cos Real.sin 64).indexCount = 768
        ∧ vertexCount (CreateCylinderMesh Real.pi Real.cos Real.sin 64).V = 258) := by
  rintro ⟨-, h⟩
  rw [vertexCount_of_length _ _ (length_V Real.pi Real.cos Real.sin 64)] at h
  have h64 : (64 : Int).toNat = 64 := rfl
  have h65 : ((64 : Int) + 1).toNat = 65 := rfl
  rw [h64, h65] at h
  omega

/-- C2 (amended). `CreateCylinderMesh(64)` yields `indexCount = 768` and 260 vertices. -/
theorem C2_hub_mesh_counts {α : Type} [LinearOrderedField α] (PI : α) (cos sin : α → α) :
    (CreateCylinderMesh PI cos sin 64).indexCount = 768
    ∧ vertexCount (CreateCylinderMesh PI cos sin 64).V = 260 := by
  have h64 : (64 : Int).toNat = 64 := rfl
  have h65 : ((64 : Int) + 1).toNat = 65 := rfl
  constructor
  · rw [indexCount_eq, length_I, h64]; rfl
  · rw [vertexCount_of_length _ _ (length_V PI cos sin 64), h64, h65]; rfl

/-! ## Gear kinematics -/

/-- C3. With the gear constants of the program, taking as angular velocity of gear `i`
the coefficient of `t` in `ang_i` (`gearOmega`, which the first conjunct shows to be that
coefficient): `|omega_i| * N_i = omega_1 * N_1` for every gear, and the gears of each
meshing pair (1,2), (1,3), (3,4), (3,6), (2,5), (2,7) turn in opposite directions. -/
theorem C3_pitch_line_velocity {α : Type} [LinearOrderedField α] :
    (∀ PI t : α,
      (spinAngles PI t).ang1 = (gearOmega (α := α)).ang1 * t + (spinAngles PI 0).ang1
      ∧ (spinAngles PI t).ang2 = (gearOmega (α := α)).ang2 * t + (spinAngles PI 0).ang2
      ∧ (spinAngles PI t).ang3 = (gearOmega (α := α)).ang3 * t + (spinAngles PI 0).ang3
      ∧ (spinAngles PI t).ang4 = (gearOmega (α := α)).ang4 * t + (spinAngles PI 0).ang4
      ∧ (spinAngles PI t).ang5 = (gearOmega (α := α)).ang5 * t + (spinAngles PI 0).ang5
      ∧ (spinAngles PI t).ang6 = (gearOmega (α := α)).ang6 * t + (spinAngles PI 0).ang6
      ∧ (spinAngles PI t).ang7 = (gearOmega (α := α)).ang7 * t + (spinAngles PI 0).ang7)
    ∧ (|(gearOmega (α := α)).ang1| * (N1 : α) = omega1 * (N1 : α)
      ∧ |(gearOmega (α := α)).ang2| * (N2 : α) = omega1 * (N1 : α)
      ∧ |(gearOmega (α := α)).ang3| * (N3 : α) = omega1 * (N1 : α)
      ∧ |(gearOmega (α := α)).ang4| * (N4 : α) = omega1 * (N1 : α)
      ∧ |(gearOmega (α := α)).ang5| * (N5 : α) = omega1 * (N1 : α)
      ∧ |(gearOmega (α := α)).ang6| * (N6 : α) = omega1 * (N1 : α)
      ∧ |(gearOmega (α := α)).ang7| * (N7 : α) = omega1 * (N1 : α))
    ∧ (0 < (gearOmega (α := α)).ang1 ∧ (gearOmega (α := α)).ang2 < 0)
    ∧ (0 < (gearOmega (α := α)).ang1 ∧ (gearOmega (α := α)).ang3 < 0)
    ∧ ((gearOmega (α := α)).ang3 < 0 ∧ 0 < (gearOmega (α := α)).ang4)
    ∧ ((gearOmega (α := α)).ang3 < 0 ∧ 0 < (gearOmega (α := α)).ang6)
    ∧ ((gearOmega (α := α)).ang2 < 0 ∧ 0 < (gearOmega (α := α)).ang5)
    ∧ ((gearOmega (α := α)).ang2 < 0 ∧ 0 < (gearOmega (α := α)).ang7) := by
  have e2 : (gearOmega (α := α)).ang2 = -(9 / 28) := by
    simp only [gearOmega, omega1, N1, N2]; norm_num
  have e3 : (gearOmega (α := α)).ang3 = -(9 / 22) := by
    simp only [gearOmega, omega1, N1, N3]; norm_num
  have e1 : (gearOmega (α := α)).ang1 = 1 / 2 := by
    simp only [gearOmega, omega1]; norm_num
  have e4 : (gearOmega (α := α)).ang4 = 9 / 7 := by
    simp only [gearOmega, omega1, N1, N4]; norm_num
  have e5 : (gearOmega (α := α)).ang5 = 9 / 11 := by
    simp only [gearOmega, omega1, N1, N5]; norm_num
  have e6 : (gearOmega (α := α)).ang6 = 9 / 8 := by
    simp only [gearOmega, omega1, N1, N6]; norm_num
  have e7 : (gearOmega (α := α)).ang7 = 9 / 11 := by
    simp only [gearOmega, omega1, N1, N7]; norm_num
  refine ⟨?_, ?_, ?_⟩
  · intro PI t
    simp only [spinAngles, gearOmega, phase2, phase5, phase7]
    refine ⟨?_, ?_, ?_, ?_, ?_, ?_, ?_⟩ <;> ring
  · rw [e1, e2, e3, e4, e5, e6, e7]
    simp only [omega1, N1, N2, N3, N4, N5, N6, N7, abs_neg]
    norm_num [abs_of_pos]
  · rw [e1, e2, e3, e4, e5, e6, e7]
    norm_num

/-! ## The wrap `fmod(x, y)` for a positive modulus -/

section Fmod

variable {α : Type} [LinearOrderedField α] [FloorRing α]

theorem fmod_of_nonneg {x y : α} (hy : 0 < y) (hx : 0 ≤ x) :
    fmod x y = x - (⌊x / y⌋ : α) * y := by
  unfold fmod
  rw [if_pos (div_nonneg hx hy.le)]

theorem fmod_of_neg {x y : α} (hy : 0 < y) (hx : x < 0) :
    fmod x y = x - (⌈x / y⌉ : α) * y := by
  unfold fmod
  rw [if_neg (not_le.mpr (div_neg_of_neg_of_pos hx hy))]

theorem fmod_nonneg_range {x y : α} (hy : 0 < y) (hx : 0 ≤ x) :
    0 ≤ fmod x y ∧ fmod x y < y := by
  rw [fmod_of_nonneg hy hx]
  have h1 : (⌊x / y⌋ : α) ≤ x / y := Int.floor_le _
  have h2 : x / y < (⌊x / y⌋ : α) + 1 := Int.lt_floor_add_one _
  rw [le_div_iff₀ hy] at h1
  rw [div_lt_iff₀ hy] at h2
  constructor <;> linarith

theorem fmod_nonpos_range {x y : α} (hy : 0 < y) (hx : x ≤ 0) :
    -y < fmod x y ∧ fmod x y ≤ 0 := by
  rcases hx.lt_or_eq with hlt | heq
  · rw [fmod_of_neg hy hlt]
    have h1 : x / y ≤ (⌈x / y⌉ : α) := Int.le_ceil _
    have h2 : (⌈x / y⌉ : α) < x / y + 1 := Int.ceil_lt_add_one _
    rw [div_le_iff₀ hy] at h1
    rw [← sub_lt_iff_lt_add, lt_div_iff₀ hy] at h2
    constructor <;> linarith
  · subst heq
    rw [fmod_of_nonneg hy le_rfl]
    simp [hy]

theorem fmod_abs_lt {x y : α} (hy : 0 < y) : -y < fmod x y ∧ fmod x y < y := by
  rcases le_total 0 x with hx | hx
  · have h := fmod_nonneg_range hy hx
    exact ⟨by linarith [h.1], h.2⟩
  · have h := fmod_nonpos_range hy hx
    exact ⟨h.1, by linarith [h.2]⟩

theorem fmod_eq_self {x y : α} (hy : 0 < y) (h1 : -y < x) (h2 : x < y) : fmod x y = x := by
  rcases le_or_lt 0 x with hx | hx
  · rw [fmod_of_nonneg hy hx]
    have : ⌊x / y⌋ = 0 := by
      rw [Int.floor_eq_iff]
      constructor
      · simpa using div_nonneg hx hy.le
      · simpa using (div_lt_one hy).mpr h2
    simp [this]
  · rw [fmod_of_neg hy hx]
    have : ⌈x / y⌉ = 0 := by
      rw [Int.ceil_eq_iff]
      constructor
      · have : -1 < x / y := by rw [lt_div_iff₀ hy]; linarith
        simpa using this
      · simpa using (div_neg_of_neg_of_pos hx hy).le
    simp [this]

theorem fmod_add_period {x y : α} (hy : 0 < y) :
    fmod (x + y) y = fmod x y + (if -y < x ∧ x < 0 then y else 0) := by
  have hq : (x + y) / y = x / y + 1 := by field_simp
  by_cases hx : 0 ≤ x
  · rw [if_neg (by intro h; exact absurd hx (not_le.mpr h.2)),
      fmod_of_nonneg hy hx, fmod_of_nonneg hy (by linarith), hq, Int.floor_add_one]
    push_cast; ring
  · push_neg at hx
    by_cases hxy : -y < x
    · rw [if_pos ⟨hxy, hx⟩, fmod_eq_self hy hxy (by linarith),
        fmod_eq_self hy (by linarith) (by linarith)]
    · push_neg at hxy
      rw [if_neg (by intro h; exact absurd h.1 (not_lt.mpr hxy)), add_zero]
      rcases hxy.lt_or_eq with hlt | heq
      · rw [fmod_of_neg hy hx, fmod_of_neg hy (by linarith), hq, Int.ceil_add_one]
        push_cast; ring
      · subst heq
        rw [fmod_of_neg hy hx, fmod_of_nonneg hy (by linarith)]
        have hy0 : y ≠ 0 := hy.ne'
        have e1 : (-y + y) / y = 0 := by simp
        have e2 : -y / y = ((-1 : Int) : α) := by field_simp
        rw [e1, e2, Int.ceil_intCast]
        simp

end Fmod

/-! ## Range and periodicity of the wrapped gear angles -/

theorem two_pi_pos : (0 : ℝ) < 2 * Real.pi := by positivity

theorem spinAngles_ang2_one : (spinAngles Real.pi (1 : ℝ)).ang2 = -(9 / 28) := by
  simp only [spinAngles, omega1, N1, N2]; norm_num

/-- C4 as stated fails: at `t = 1` the wrapped angle of gear 2 is `-9/28`, which is
negative and so outside `[0, 2π)`. -/
theorem C4_counterexample :
    (0 : ℝ) ≤ 1
    ∧ (wrappedAngles Real.pi (2 * Real.pi) (1 : ℝ)).ang2 = -(9 / 28)
    ∧ ¬ (0 ≤ (wrappedAngles Real.pi (2 * Real.pi) (1 : ℝ)).ang2
          ∧ (wrappedAngles Real.pi (2 * Real.pi) (1 : ℝ)).ang2 < 2 * Real.pi) := by
  have h3 := Real.pi_gt_three
  have e : (wrappedAngles Real.pi (2 * Real.pi) (1 : ℝ)).ang2 = -(9 / 28) := by
    show fmod (spinAngles Real.pi (1 : ℝ)).ang2 (2 * Real.pi) = -(9 / 28)
    rw [spinAngles_ang2_one]
    exact fmod_eq_self two_pi_pos (by linarith) (by linarith)
  refine ⟨zero_le_one, e, ?_⟩
  rw [e]
  rintro ⟨h, -⟩
  norm_num at h

/-- C4 (amended). For every `t ≥ 0` the wrapped angles of gears 1, 4, 5, 6, 7 lie in
`[0, 2π)`, that of gear 2 in `(-2π, 0]` and that of gear 3 in `(-2π, 2π)`; in general the
wrap of `x` lies in `(-2π, 2π)` and has the sign of `x`: in `[0, 2π)` for `x ≥ 0`, in
`(-2π, 0]` for `x ≤ 0`. -/
theorem C4_wrap_range (t : ℝ) (ht : 0 ≤ t) :
    (0 ≤ (wrappedAngles Real.pi (2 * Real.pi) t).ang1
      ∧ (wrappedAngles Real.pi (2 * Real.pi) t).ang1 < 2 * Real.pi)
    ∧ (-(2 * Real.pi) < (wrappedAngles Real.pi (2 * Real.pi) t).ang2
      ∧ (wrappedAngles Real.pi (2 * Real.pi) t).ang2 ≤ 0)
    ∧ (-(2 * Real.pi) < (wrappedAngles Real.pi (2 * Real.pi) t).ang3
      ∧ (wrappedAngles Real.pi (2 * Real.pi) t).ang3 < 2 * Real.pi)
    ∧ (0 ≤ (wrappedAngles Real.pi (2 * Real.pi) t).ang4
      ∧ (wrappedAngles Real.pi (2 * Real.pi) t).ang4 < 2 * Real.pi)
    ∧ (0 ≤ (wrappedAngles Real.pi (2 * Real.pi) t).ang5
      ∧ (wrappedAngles Real.pi (2 * Real.pi) t).ang5 < 2 * Real.pi)
    ∧ (0 ≤ (wrappedAngles Real.pi (2 * Real.pi) t).ang6
      ∧ (wrappedAngles Real.pi (2 * Real.pi) t).ang6 < 2 * Real.pi)
    ∧ (0 ≤ (wrappedAngles Real.pi (2 * Real.pi) t).ang7
      ∧ (wrappedAngles Real.pi (2 * Real.pi) t).ang7 < 2 * Real.pi)
    ∧ ∀ x : ℝ,
        (-(2 * Real.pi) < fmod x (2 * Real.pi) ∧ fmod x (2 * Real.pi) < 2 * Real.pi)
        ∧ (0 ≤ x → 0 ≤ fmod x (2 * Real.pi))
        ∧ (x ≤ 0 → fmod x (2 * Real.pi) ≤ 0) := by
  have hpi := Real.pi_pos
  have h1 : (0 : ℝ) ≤ (spinAngles Real.pi t).ang1 := by
    simp only [spinAngles, omega1]; positivity
  have h2 : (spinAngles Real.pi t).ang2 ≤ 0 := by
    simp only [spinAngles, omega1, N1, N2]
    have : (0 : ℝ) ≤ 0.5 * (((18 : Int) : ℝ) / ((28 : Int) : ℝ)) * t := by positivity
    linarith
  have h4 : (0 : ℝ) ≤ (spinAngles Real.pi t).ang4 := by
    simp only [spinAngles, omega1, N1, N4]; positivity
  have h5 : (0 : ℝ) ≤ (spinAngles Real.pi t).ang5 := by
    simp only [spinAngles, omega1, N1, N5, phase5]; positivity
  have h6 : (0 : ℝ) ≤ (spinAngles Real.pi t).ang6 := by
    simp only [spinAngles, omega1, N1, N6]; positivity
  have h7 : (0 : ℝ) ≤ (spinAngles Real.pi t).ang7 := by
    simp only [spinAngles, omega1, N1, N7, phase7]; positivity
  refine ⟨fmod_nonneg_range two_pi_pos h1, fmod_nonpos_range two_pi_pos h2,
    fmod_abs_lt two_pi_pos, fmod_nonneg_range two_pi_pos h4,
    fmod_nonneg_range two_pi_pos h5, fmod_nonneg_range two_pi_pos h6,
    fmod_nonneg_range two_pi_pos h7, ?_⟩
  intro x
  exact ⟨fmod_abs_lt two_pi_pos, fun hx => (fmod_nonneg_range two_pi_pos hx).1,
    fun hx => (fmod_nonpos_range two_pi_pos hx).2⟩

/-- Witness of C4 (amended) at `t = 1`. -/
theorem C4_wrap_range_witness :
    (0 : ℝ) ≤ 1
    ∧ (-(2 * Real.pi) < (wrappedAngles Real.pi (2 * Real.pi) (1 : ℝ)).ang2
      ∧ (wrappedAngles Real.pi (2 * Real.pi) (1 : ℝ)).ang2 ≤ 0)
    ∧ (0 ≤ (wrappedAngles Real.pi (2 * Real.pi) (1 : ℝ)).ang4
      ∧ (wrappedAngles Real.pi (2 * Real.pi) (1 : ℝ)).ang4 < 2 * Real.pi) :=
  ⟨zero_le_one, (C4_wrap_range 1 zero_le_one).2.1, (C4_wrap_range 1 zero_le_one).2.2.2.1⟩

/-- C5 as stated fails: at `x = -1` the wrap of `x + 2π` is `2π - 1` while the wrap of `x`
is `-1`. -/
theorem C5_counterexample :
    fmod ((-1 : ℝ) + 2 * Real.pi) (2 * Real.pi) = 2 * Real.pi - 1
    ∧ fmod (-1 : ℝ) (2 * Real.pi) = -1
    ∧ ¬ (fmod ((-1 : ℝ) + 2 * Real.pi) (2 * Real.pi) = fmod (-1 : ℝ) (2 * Real.pi)) := by
  have h3 := Real.pi_gt_three
  have e1 : fmod ((-1 : ℝ) + 2 * Real.pi) (2 * Real.pi) = 2 * Real.pi - 1 := by
    rw [fmod_eq_self two_pi_pos (by linarith) (by linarith)]; ring
  have e2 : fmod (-1 : ℝ) (2 * Real.pi) = -1 :=
    fmod_eq_self two_pi_pos (by linarith) (by linarith)
  refine ⟨e1, e2, ?_⟩
  rw [e1, e2]
  intro h
  linarith

/-- C5 (amended). The wrap is 2π-periodic at every `x ≥ 0` and every `x ≤ -2π`; for
`-2π < x < 0` the wrap of `x + 2π` exceeds the wrap of `x` by `2π`. -/
theorem C5_wrap_shift (x : ℝ) :
    fmod (x + 2 * Real.pi) (2 * Real.pi)
      = fmod x (2 * Real.pi)
        + (if -(2 * Real.pi) < x ∧ x < 0 then 2 * Real.pi else 0) :=
  fmod_add_period two_pi_pos

/-! ## Static phase offsets -/

theorem fmod_zero_left {α : Type} [LinearOrderedField α] [FloorRing α] (y : α) :
    fmod 0 y = 0 := by
  simp [fmod]

theorem fmod_pi_div (n : ℝ) (hn : 1 ≤ n) :
    fmod (Real.pi / n) (2 * Real.pi) = Real.pi / n := by
  have hpi := Real.pi_pos
  have hpos : 0 < Real.pi / n := by positivity
  have hle : Real.pi / n ≤ Real.pi := div_le_self hpi.le hn
  exact fmod_eq_self two_pi_pos (by linarith) (by linarith)

theorem drawn_phase_gear2 :
    (drawnAngles Real.pi (2 * Real.pi) (0 : ℝ)).ang2 = Real.pi / (N2 : ℝ) := by
  show fmod (spinAngles Real.pi (0 : ℝ)).ang2 (2 * Real.pi) + phase2 Real.pi = _
  simp only [spinAngles, mul_zero, fmod_zero_left, zero_add, phase2]

theorem drawn_phase_gear3 :
    (drawnAngles Real.pi (2 * Real.pi) (0 : ℝ)).ang3 = Real.pi / (N2 : ℝ) := by
  show fmod (spinAngles Real.pi (0 : ℝ)).ang3 (2 * Real.pi) = _
  simp only [spinAngles, mul_zero, zero_add, phase2]
  exact fmod_pi_div _ (by simp only [N2]; norm_num)

theorem drawn_phase_gear4 : (drawnAngles Real.pi (2 * Real.pi) (0 : ℝ)).ang4 = 0 := by
  show fmod (spinAngles Real.pi (0 : ℝ)).ang4 (2 * Real.pi) = _
  simp only [spinAngles, mul_zero, fmod_zero_left]

theorem drawn_phase_gear5 :
    (drawnAngles Real.pi (2 * Real.pi) (0 : ℝ)).ang5 = Real.pi / (N5 : ℝ) := by
  show fmod (spinAngles Real.pi (0 : ℝ)).ang5 (2 * Real.pi) = _
  simp only [spinAngles, mul_zero, zero_add, phase5]
  exact fmod_pi_div _ (by simp only [N5]; norm_num)

theorem drawn_phase_gear6 : (drawnAngles Real.pi (2 * Real.pi) (0 : ℝ)).ang6 = 0 := by
  show fmod (spinAngles Real.pi (0 : ℝ)).ang6 (2 * Real.pi) = _
  simp only [spinAngles, mul_zero, fmod_zero_left]

theorem drawn_phase_gear7 :
    (drawnAngles Real.pi (2 * Real.pi) (0 : ℝ)).ang7 = Real.pi / (N7 : ℝ) := by
  show fmod (spinAngles Real.pi (0 : ℝ)).ang7 (2 * Real.pi) = _
  simp only [spinAngles, mul_zero, zero_add, phase7]
  exact fmod_pi_div _ (by simp only [N7]; norm_num)

/-- Gear 3 is drawn at `t = 0` with the phase of gear 2, `π / 28`, which is not half of
its own tooth angle `π / 22`. -/
theorem drawn_phase_gear3_ne :
    (drawnAngles Real.pi (2 * Real.pi) (0 : ℝ)).ang3 ≠ Real.pi / (N3 : ℝ) := by
  rw [drawn_phase_gear3]
  have hpi := Real.pi_pos
  simp only [N2, N3]
  intro h
  field_simp at h
  norm_num at h
  exact hpi.ne' h

/-- C6 as stated fails: gear 4 (neighbour gear 3, 22 teeth) is drawn at `t = 0` with
angle `0`, not `π / N4`; likewise gear 6. -/
theorem C6_counterexample :
    (drawnAngles Real.pi (2 * Real.pi) (0 : ℝ)).ang4 = 0
    ∧ ¬ ((drawnAngles Real.pi (2 * Real.pi) (0 : ℝ)).ang4 = Real.pi / (N4 : ℝ))
    ∧ ¬ ((drawnAngles Real.pi (2 * Real.pi) (0 : ℝ)).ang6 = Real.pi / (N6 : ℝ)) := by
  have hpi := Real.pi_pos
  refine ⟨drawn_phase_gear4, ?_, ?_⟩
  · rw [drawn_phase_gear4]
    have : 0 < Real.pi / (N4 : ℝ) := by simp only [N4]; positivity
    exact this.ne
  · rw [drawn_phase_gear6]
    have : 0 < Real.pi / (N6 : ℝ) := by simp only [N6]; positivity
    exact this.ne

/-- C6 (amended). At `t = 0` gears 2, 5 and 7 are handed to `DrawGearTeeth` with the
angle `π / N`, `N` their own tooth count; gears 4 and 6 are handed the angle `0`. -/
theorem C6_static_phases :
    (drawnAngles Real.pi (2 * Real.pi) (0 : ℝ)).ang2 = Real.pi / (N2 : ℝ)
    ∧ (drawnAngles Real.pi (2 * Real.pi) (0 : ℝ)).ang5 = Real.pi / (N5 : ℝ)
    ∧ (drawnAngles Real.pi (2 * Real.pi) (0 : ℝ)).ang7 = Real.pi / (N7 : ℝ)
    ∧ (drawnAngles Real.pi (2 * Real.pi) (0 : ℝ)).ang4 = 0
    ∧ (drawnAngles Real.pi (2 * Real.pi) (0 : ℝ)).ang6 = 0 :=
  ⟨drawn_phase_gear2, drawn_phase_gear5, drawn_phase_gear7, drawn_phase_gear4,
    drawn_phase_gear6⟩

/-! ## `DrawGearTeeth` -/

section Teeth

variable {α : Type} [LinearOrderedField α]

theorem DrawGearTeeth_eq_map (PI : α) (cos sin : α → α) (parent : Mat4 α)
    (center : Vec3 α) (N : Int) (baseRadius toothLen toothHeight thick angleRad : α) :
    DrawGearTeeth PI cos sin parent center N baseRadius toothLen toothHeight thick angleRad
      = (List.range N.toNat).map fun i =>
          { model := toothModel cos sin parent center baseRadius toothLen toothHeight thick
              (angleRad + (i : α) * (2.0 * PI / (N : α)))
            first := 0
            count := 36 } := by
  unfold DrawGearTeeth
  simp only [forRange_append, List.nil_append]
  induction (List.range N.toNat) with
  | nil => rfl
  | cons a t ih => rw [List.flatMap_cons, ih]; rfl

/-- C7. For every tooth count `N ≥ 1` and every start angle, `DrawGearTeeth` issues exactly
`N` draw submissions; submission `i` (for `i = 0, …, N-1`) draws the 36 cube vertices with
the model matrix built from the rotation about Z by `angleRad + i * 2π / N`, and
consecutive rotations differ by exactly `2π / N`. -/
theorem C7_teeth_submissions (PI : α) (cos sin : α → α) (parent : Mat4 α)
    (center : Vec3 α) (N : Int) (baseRadius toothLen toothHeight thick angleRad : α)
    (hN : 1 ≤ N) :
    (((DrawGearTeeth PI cos sin parent center N baseRadius toothLen toothHeight thick
        angleRad).length : Nat) : Int) = N
    ∧ ∀ i : Nat, (i : Int) < N →
        (DrawGearTeeth PI cos sin parent center N baseRadius toothLen toothHeight thick
            angleRad)[i]?
          = some { model := toothModel cos sin parent center baseRadius toothLen
                      toothHeight thick (angleRad + (i : α) * 2 * PI / (N : α))
                   first := 0
                   count := 36 }
        ∧ (angleRad + ((i : α) + 1) * 2 * PI / (N : α))
            - (angleRad + (i : α) * 2 * PI / (N : α)) = 2 * PI / (N : α) := by
  rw [DrawGearTeeth_eq_map]
  constructor
  · rw [List.length_map, List.length_range]
    exact Int.toNat_of_nonneg (by omega)
  · intro i hi
    have hi' : i < N.toNat := by omega
    constructor
    · rw [List.getElem?_map, List.getElem?_range hi']
      have e : angleRad + (i : α) * (2.0 * PI / (N : α))
          = angleRad + (i : α) * 2 * PI / (N : α) := by
        norm_num; ring
      simp only [Option.map_some', e]
    · ring

/-- Witness of C7: a gear of 3 teeth over the rationals. -/
theorem C7_teeth_submissions_witness :
    (1 : Int) ≤ 3
    ∧ (((DrawGearTeeth (3 : ℚ) (fun _ => 1) (fun _ => 0) Mat4.identity ⟨0, 0, 0⟩ 3
          1 1 1 1 0).length : Nat) : Int) = 3 :=
  ⟨by decide, (C7_teeth_submissions (3 : ℚ) (fun _ => 1) (fun _ => 0) Mat4.identity
    ⟨0, 0, 0⟩ 3 1 1 1 1 0 (by decide)).1⟩

end Teeth

theorem cubePoint_x (k : Nat) (hk : k < 36) :
    (cubePoint (α := ℝ) k).x = -0.5 ∨ (cubePoint (α := ℝ) k).x = 0.5 := by
  interval_cases k <;> first | exact Or.inl rfl | exact Or.inr rfl

theorem cubePoint_w (k : Nat) : (cubePoint (α := ℝ) k).w = 1 := rfl

theorem radialCoord_toothModel (center : Vec3 ℝ)
    (baseRadius toothLen toothHeight thick a : ℝ) (p : Vec4 ℝ) (hw : p.w = 1) :
    radialCoord Real.cos Real.sin center a
        ((toothModel Real.cos Real.sin Mat4.identity center baseRadius toothLen toothHeight
          thick a).mulVec p)
      = baseRadius + toothLen * 0.5 + toothLen * p.x := by
  simp only [radialCoord, toothModel, scale, translate, rotate, Mat4.identity, Mat4.mulVec,
    Vec4.add, Vec4.scale, hw]
  have h := Real.cos_sq_add_sin_sq a
  ring_nf
  linear_combination (baseRadius + toothLen * (1 / 2) + toothLen * p.x) * h

/-- C8. For every tooth drawn by `DrawGearTeeth` with an identity parent transform and
`toothLen > 0` (tooth `i`, rotation `a = angleRad + i * 2π / N`), the model matrix maps
each of the 36 cube vertices (all of which have `x = -0.5` or `x = +0.5`) so that, measured
from the gear centre along `(cos a, sin a, 0)`, the vertices of the face `x = -0.5` lie at
exactly `baseRadius` and those of the face `x = +0.5` at exactly `baseRadius + toothLen`,
strictly further out. -/
theorem C8_tooth_faces (center : Vec3 ℝ) (N : Int)
    (baseRadius toothLen toothHeight thick angleRad : ℝ) (hlen : 0 < toothLen)
    (i : Nat) (hi : (i : Int) < N) (k : Nat) (hk : k < 36) :
    ∃ call : DrawCall ℝ,
      (DrawGearTeeth Real.pi Real.cos Real.sin Mat4.identity center N baseRadius toothLen
          toothHeight thick angleRad)[i]? = some call
      ∧ ((cubePoint (α := ℝ) k).x = -0.5 ∨ (cubePoint (α := ℝ) k).x = 0.5)
      ∧ ((cubePoint (α := ℝ) k).x = -0.5 →
          radialCoord Real.cos Real.sin center (angleRad + (i : ℝ) * 2 * Real.pi / (N : ℝ))
            (call.model.mulVec (cubePoint k)) = baseRadius)
      ∧ ((cubePoint (α := ℝ) k).x = 0.5 →
          radialCoord Real.cos Real.sin center (angleRad + (i : ℝ) * 2 * Real.pi / (N : ℝ))
            (call.model.mulVec (cubePoint k)) = baseRadius + toothLen)
      ∧ baseRadius < baseRadius + toothLen := by
  have hi' : i < N.toNat := by omega
  have e : angleRad + (i : ℝ) * (2.0 * Real.pi / (N : ℝ))
      = angleRad + (i : ℝ) * 2 * Real.pi / (N : ℝ) := by
    norm_num; ring
  refine ⟨{ model := toothModel Real.cos Real.sin Mat4.identity center baseRadius toothLen
              toothHeight thick (angleRad + (i : ℝ) * 2 * Real.pi / (N : ℝ))
            first := 0
            count := 36 }, ?_, cubePoint_x k hk, ?_, ?_, by linarith⟩
  · rw [DrawGearTeeth_eq_map, List.getElem?_map, List.getElem?_range hi']
    simp only [Option.map_some', e]
  · intro hx
    rw [radialCoord_toothModel _ _ _ _ _ _ _ (cubePoint_w k), hx]
    norm_num
  · intro hx
    rw [radialCoord_toothModel _ _ _ _ _ _ _ (cubePoint_w k), hx]
    norm_num; ring

/-- Witness of C8: tooth 0 of gear 1 (18 teeth, pitch radius 1.2) and cube vertex 0. -/
theorem C8_tooth_faces_witness :
    (0 : ℝ) < 0.25 ∧ ((0 : Nat) : Int) < 18 ∧ 0 < 36
    ∧ ∃ call : DrawCall ℝ,
      (DrawGearTeeth Real.pi Real.cos Real.sin Mat4.identity ⟨0, 0, 0⟩ 18 1.2 0.25
          0.2 0.2 0)[0]? = some call
      ∧ ((cubePoint (α := ℝ) 0).x = -0.5 ∨ (cubePoint (α := ℝ) 0).x = 0.5)
      ∧ ((cubePoint (α := ℝ) 0).x = -0.5 →
          radialCoord Real.cos Real.sin ⟨0, 0, 0⟩
            (0 + ((0 : Nat) : ℝ) * 2 * Real.pi / ((18 : Int) : ℝ))
            (call.model.mulVec (cubePoint 0)) = 1.2)
      ∧ ((cubePoint (α := ℝ) 0).x = 0.5 →
          radialCoord Real.cos Real.sin ⟨0, 0, 0⟩
            (0 + ((0 : Nat) : ℝ) * 2 * Real.pi / ((18 : Int) : ℝ))
            (call.model.mulVec (cubePoint 0)) = 1.2 + 0.25)
      ∧ (1.2 : ℝ) < 1.2 + 0.25 :=
  ⟨by norm_num, by decide, by decide,
    C8_tooth_faces ⟨0, 0, 0⟩ 18 1.2 0.25 0.2 0.2 0 (by norm_num) 0 (by decide) 0
      (by decide)⟩

/-! ## Reading vertices and triangles out of the buffers -/

section Blocks

variable {β : Type}

theorem block_append_left (c : Nat) (A B : List β) (k : Nat) (h : c * k + c ≤ A.length) :
    block c (A ++ B) k = block c A k := by
  unfold block
  rw [List.drop_append_of_le_length (by omega),
    List.take_append_of_le_length (by rw [List.length_drop]; omega)]

theorem block_append_right (c : Nat) (A B : List β) (a k : Nat) (h : A.length = c * a) :
    block c (A ++ B) (a + k) = block c B k := by
  unfold block
  have e : c * (a + k) = A.length + c * k := by rw [h, Nat.mul_add]
  rw [e, List.drop_append]

theorem block_flatMap (f : Nat → List β) (c d : Nat) (hf : ∀ i, (f i).length = c * d)
    (l : List Nat) (i j : Nat) (hi : i < l.length) (hj : j < d) :
    block c (l.flatMap f) (d * i + j) = block c (f l[i]) j := by
  induction l generalizing i with
  | nil => simp at hi
  | cons a t ih =>
    rw [List.flatMap_cons]
    cases i with
    | zero =>
      have hle : c * j + c ≤ (f a).length := by
        rw [hf a]
        calc c * j + c = c * (j + 1) := by rw [Nat.mul_add, Nat.mul_one]
          _ ≤ c * d := Nat.mul_le_mul_left c hj
      simpa using block_append_left c (f a) (t.flatMap f) j hle
    | succ i =>
      have e : d * (i + 1) + j = d + (d * i + j) := by rw [Nat.mul_add, Nat.mul_one]; omega
      rw [e, block_append_right c (f a) _ d (d * i + j) (hf a)]
      simpa using ih i (by simpa using hi)

theorem block_range_flatMap (f : Nat → List β) (c d : Nat)
    (hf : ∀ i, (f i).length = c * d) (n i j : Nat) (hi : i < n) (hj : j < d) :
    block c ((List.range n).flatMap f) (d * i + j) = block c (f i) j := by
  rw [block_flatMap f c d hf (List.range n) i j (by simpa using hi) hj, List.getElem_range]

theorem block_zero_self (c : Nat) (l : List β) (h : l.length = c) : block c l 0 = l := by
  unfold block
  rw [Nat.mul_zero, List.drop_zero, List.take_of_length_le (by omega)]

theorem block_range_flatMap_one (f : Nat → List β) (c : Nat)
    (hf : ∀ i, (f i).length = c) (n i : Nat) (hi : i < n) :
    block c ((List.range n).flatMap f) i = f i := by
  have h := block_range_flatMap f c 1 (by simpa using hf) n i 0 hi Nat.one_pos
  rw [Nat.one_mul, Nat.add_zero] at h
  rw [h, block_zero_self c (f i) (hf i)]

end Blocks

/-! ## Cap fans and side wall of the cylinder -/

/-- C9. For every `segments ≥ 3` and `i` in `[0, segments)`, triangle `i` of the index
buffer (top-cap triangle `i`) is `(0, 1 + i, 1 + (i + 1) mod segments)` and triangle
`segments + i` (bottom-cap triangle `i`) is
`(segments + 1, segments + 2 + (i + 1) mod segments, segments + 2 + i)`: the same fan with
the two ring indices in reversed order, where `topCenter = 0`, `topRingStart = 1`,
`bottomCenter = segments + 1`, `bottomRingStart = segments + 2`. -/
theorem C9_cap_triangles {α : Type} [LinearOrderedField α] (PI : α) (cos sin : α → α)
    (segments : Int) (h : 3 ≤ segments) (i : Nat) (hi : (i : Int) < segments) :
    block 3 (CreateCylinderMesh PI cos sin segments).I i
      = [0, 1 + (i : Int), 1 + ((i : Int) + 1) % segments]
    ∧ block 3 (CreateCylinderMesh PI cos sin segments).I (segments.toNat + i)
      = [segments + 1, segments + 2 + ((i : Int) + 1) % segments, segments + 2 + (i : Int)] := by
  have hn : ((segments.toNat : Nat) : Int) = segments := Int.toNat_of_nonneg (by omega)
  have hi' : i < segments.toNat := by omega
  have hmod : Int.tmod ((i : Int) + 1) segments = ((i : Int) + 1) % segments :=
    Int.tmod_eq_emod (by omega) (by omega)
  have hA : ((List.range segments.toNat).flatMap (topCapTriangle segments)).length
      = 3 * segments.toNat := by
    rw [length_flatMap_const (topCapTriangle segments) 3 (fun _ => rfl), List.length_range]
  have hB : ((List.range segments.toNat).flatMap (bottomCapTriangle segments)).length
      = 3 * segments.toNat := by
    rw [length_flatMap_const (bottomCapTriangle segments) 3 (fun _ => rfl), List.length_range]
  rw [CreateCylinderMesh_I]
  constructor
  · rw [block_append_left 3 _ _ i (by rw [List.length_append, hA, hB]; omega),
      block_append_left 3 _ _ i (by rw [hA]; omega),
      block_range_flatMap_one (topCapTriangle segments) 3 (fun _ => rfl) _ i hi']
    simp only [topCapTriangle, hmod]
  · rw [block_append_left 3 _ _ (segments.toNat + i)
        (by rw [List.length_append, hA, hB]; omega),
      block_append_right 3 _ _ segments.toNat i hA,
      block_range_flatMap_one (bottomCapTriangle segments) 3 (fun _ => rfl) _ i hi']
    simp only [bottomCapTriangle, hmod, hn]

/-- Witness of C9: `segments = 3`, `i = 2` (the triangle that closes each fan). -/
theorem C9_cap_triangles_witness :
    (3 : Int) ≤ 3 ∧ ((2 : Nat) : Int) < 3
    ∧ block 3 (CreateCylinderMesh (3 : ℚ) id id 3).I 2
      = [0, 1 + ((2 : Nat) : Int), 1 + (((2 : Nat) : Int) + 1) % 3]
    ∧ block 3 (CreateCylinderMesh (3 : ℚ) id id 3).I ((3 : Int).toNat + 2)
      = [3 + 1, 3 + 2 + (((2 : Nat) : Int) + 1) % 3, 3 + 2 + ((2 : Nat) : Int)] :=
  ⟨by decide, by decide, C9_cap_triangles (3 : ℚ) id id 3 (by decide) 2 (by decide)⟩

theorem block_sideColumn_top {α : Type} [LinearOrderedField α] (PI : α) (cos sin : α → α)
    (segments : Int) (i : Nat) :
    block 8 (sideColumn PI cos sin segments i) 0
      = vtx (cos ((i : α) / (segments : α) * 2 * PI)) (sin ((i : α) / (segments : α) * 2 * PI))
          0.5 (cos ((i : α) / (segments : α) * 2 * PI))
          (sin ((i : α) / (segments : α) * 2 * PI)) 0 ((i : α) / (segments : α)) 1.0 := rfl

theorem block_sideColumn_bottom {α : Type} [LinearOrderedField α] (PI : α) (cos sin : α → α)
    (segments : Int) (i : Nat) :
    block 8 (sideColumn PI cos sin segments i) 1
      = vtx (cos ((i : α) / (segments : α) * 2 * PI)) (sin ((i : α) / (segments : α) * 2 * PI))
          (-0.5) (cos ((i : α) / (segments : α) * 2 * PI))
          (sin ((i : α) / (segments : α) * 2 * PI)) 0 ((i : α) / (segments : α)) 0.0 := rfl

/-- Vertex `sideStart + 2 i + j` of the float buffer is entry `j` of side column `i`. -/
theorem block_side {α : Type} [LinearOrderedField α] (PI : α) (cos sin : α → α)
    (segments : Int) (i j : Nat) (hi : i < (segments + 1).toNat) (hj : j < 2) :
    block 8 (CreateCylinderMesh PI cos sin segments).V
        (2 * segments.toNat + 2 + (2 * i + j))
      = block 8 (sideColumn PI cos sin segments i) j := by
  rw [CreateCylinderMesh_V,
    block_append_right 8 _ _ (2 * segments.toNat + 2) (2 * i + j)
      (by simp only [List.length_append, length_capRing, length_vtx]; omega)]
  exact block_range_flatMap (sideColumn PI cos sin segments) 8 2 (fun _ => rfl) _ i j hi hj

theorem block_side_top {α : Type} [LinearOrderedField α] (PI : α) (cos sin : α → α)
    (segments : Int) (i : Nat) (hi : i < (segments + 1).toNat) :
    block 8 (CreateCylinderMesh PI cos sin segments).V (2 * segments.toNat + 2 + 2 * i)
      = vtx (cos ((i : α) / (segments : α) * 2 * PI)) (sin ((i : α) / (segments : α) * 2 * PI))
          0.5 (cos ((i : α) / (segments : α) * 2 * PI))
          (sin ((i : α) / (segments : α) * 2 * PI)) 0 ((i : α) / (segments : α)) 1.0 :=
  (block_side PI cos sin segments i 0 hi (by decide)).trans
    (block_sideColumn_top PI cos sin segments i)

theorem block_side_bottom {α : Type} [LinearOrderedField α] (PI : α) (cos sin : α → α)
    (segments : Int) (i : Nat) (hi : i < (segments + 1).toNat) :
    block 8 (CreateCylinderMesh PI cos sin segments).V (2 * segments.toNat + 2 + 2 * i + 1)
      = vtx (cos ((i : α) / (segments : α) * 2 * PI)) (sin ((i : α) / (segments : α) * 2 * PI))
          (-0.5) (cos ((i : α) / (segments : α) * 2 * PI))
          (sin ((i : α) / (segments : α) * 2 * PI)) 0 ((i : α) / (segments : α)) 0.0 :=
  (block_side PI cos sin segments i 1 hi (by decide)).trans
    (block_sideColumn_bottom PI cos sin segments i)

/-- C10. For every `segments ≥ 3` the side wall occupies the last `2 * (segments + 1)`
vertices of the buffer, starting at `sideStart = 2 * segments + 2`: for every `i` in
`[0, segments]` with `a_i = 2π i / segments`, vertex `sideStart + 2 i` is
`(cos a_i, sin a_i, +0.5)` with normal `(cos a_i, sin a_i, 0)` and uv `(i / segments, 1)`,
and vertex `sideStart + 2 i + 1` is `(cos a_i, sin a_i, -0.5)` with the same normal and uv
`(i / segments, 0)`.  The seam columns `i = 0` and `i = segments` both sit at position
`(1, 0, ±0.5)` with normal `(1, 0, 0)` and differ only in U, which is 0 and 1. -/
theorem C10_side_wall (segments : Int) (h : 3 ≤ segments) (i : Nat)
    (hi : (i : Int) ≤ segments) :
    vertexCount (CreateCylinderMesh Real.pi Real.cos Real.sin segments).V
        - (2 * segments + 2) = 2 * (segments + 1)
    ∧ block 8 (CreateCylinderMesh Real.pi Real.cos Real.sin segments).V
          (2 * segments.toNat + 2 + 2 * i)
        = [Real.cos (2 * Real.pi * (i : ℝ) / (segments : ℝ)),
           Real.sin (2 * Real.pi * (i : ℝ) / (segments : ℝ)), 0.5,
           Real.cos (2 * Real.pi * (i : ℝ) / (segments : ℝ)),
           Real.sin (2 * Real.pi * (i : ℝ) / (segments : ℝ)), 0,
           (i : ℝ) / (segments : ℝ), 1]
    ∧ block 8 (CreateCylinderMesh Real.pi Real.cos Real.sin segments).V
          (2 * segments.toNat + 2 + 2 * i + 1)
        = [Real.cos (2 * Real.pi * (i : ℝ) / (segments : ℝ)),
           Real.sin (2 * Real.pi * (i : ℝ) / (segments : ℝ)), -0.5,
           Real.cos (2 * Real.pi * (i : ℝ) / (segments : ℝ)),
           Real.sin (2 * Real.pi * (i : ℝ) / (segments : ℝ)), 0,
           (i : ℝ) / (segments : ℝ), 0]
    ∧ block 8 (CreateCylinderMesh Real.pi Real.cos Real.sin segments).V
          (2 * segments.toNat + 2 + 2 * 0)
        = [1, 0, 0.5, 1, 0, 0, 0, 1]
    ∧ block 8 (CreateCylinderMesh Real.pi Real.cos Real.sin segments).V
          (2 * segments.toNat + 2 + 2 * segments.toNat)
        = [1, 0, 0.5, 1, 0, 0, 1, 1]
    ∧ block 8 (CreateCylinderMesh Real.pi Real.cos Real.sin segments).V
          (2 * segments.toNat + 2 + 2 * 0 + 1)
        = [1, 0, -0.5, 1, 0, 0, 0, 0]
    ∧ block 8 (CreateCylinderMesh Real.pi Real.cos Real.sin segments).V
          (2 * segments.toNat + 2 + 2 * segments.toNat + 1)
        = [1, 0, -0.5, 1, 0, 0, 1, 0] := by
  have hn : ((segments.toNat : Nat) : Int) = segments := Int.toNat_of_nonneg (by omega)
  have hn1 : (((segments + 1).toNat : Nat) : Int) = segments + 1 :=
    Int.toNat_of_nonneg (by omega)
  have hcast : ((segments.toNat : Nat) : ℝ) = (segments : ℝ) := by
    rw [← Int.cast_natCast, hn]
  have hseg : (segments : ℝ) ≠ 0 := by
    have : (0 : ℝ) < (segments : ℝ) := by exact_mod_cast (by omega : (0 : Int) < segments)
    exact this.ne'
  have hi' : i < (segments + 1).toNat := by omega
  have h0' : 0 < (segments + 1).toNat := by omega
  have hs' : segments.toNat < (segments + 1).toNat := by omega
  have ea : (i : ℝ) / (segments : ℝ) * 2 * Real.pi
      = 2 * Real.pi * (i : ℝ) / (segments : ℝ) := by ring
  have e0 : ((0 : Nat) : ℝ) / (segments : ℝ) * 2 * Real.pi = 0 := by simp
  have es : ((segments.toNat : Nat) : ℝ) / (segments : ℝ) * 2 * Real.pi = 2 * Real.pi := by
    rw [hcast, div_self hseg]; ring
  refine ⟨?_, ?_, ?_, ?_, ?_, ?_, ?_⟩
  · rw [vertexCount_of_length _ _ (length_V Real.pi Real.cos Real.sin segments)]
    push_cast
    rw [hn, hn1]
    ring
  · rw [block_side_top Real.pi Real.cos Real.sin segments i hi', ea]
    simp only [vtx]
    norm_num
  · rw [block_side_bottom Real.pi Real.cos Real.sin segments i hi', ea]
    simp only [vtx]
    norm_num
  · rw [block_side_top Real.pi Real.cos Real.sin segments 0 h0', e0]
    simp only [vtx, Real.cos_zero, Real.sin_zero]
    norm_num
  · rw [block_side_top Real.pi Real.cos Real.sin segments segments.toNat hs', es]
    simp only [vtx, Real.cos_two_pi, Real.sin_two_pi, hcast, div_self hseg]
    norm_num
  · rw [block_side_bottom Real.pi Real.cos Real.sin segments 0 h0', e0]
    simp only [vtx, Real.cos_zero, Real.sin_zero]
    norm_num
  · rw [block_side_bottom Real.pi Real.cos Real.sin segments segments.toNat hs', es]
    simp only [vtx, Real.cos_two_pi, Real.sin_two_pi, hcast, div_self hseg]
    norm_num

/-- Witness of C10: `segments = 4`, column `i = 1` (a quarter turn). -/
theorem C10_side_wall_witness :
    (3 : Int) ≤ 4 ∧ ((1 : Nat) : Int) ≤ 4
    ∧ block 8 (CreateCylinderMesh Real.pi Real.cos Real.sin 4).V
          (2 * (4 : Int).toNat + 2 + 2 * 1)
        = [Real.cos (2 * Real.pi * ((1 : Nat) : ℝ) / ((4 : Int) : ℝ)),
           Real.sin (2 * Real.pi * ((1 : Nat) : ℝ) / ((4 : Int) : ℝ)), 0.5,
           Real.cos (2 * Real.pi * ((1 : Nat) : ℝ) / ((4 : Int) : ℝ)),
           Real.sin (2 * Real.pi * ((1 : Nat) : ℝ) / ((4 : Int) : ℝ)), 0,
           ((1 : Nat) : ℝ) / ((4 : Int) : ℝ), 1] :=
  ⟨by decide, by decide, (C10_side_wall 4 (by decide) 1 (by decide)).2.1⟩


/-! ## Index bounds of the cylinder mesh -/

/-- C14. For every `segments ≥ 1` the vertex buffer holds `4 * segments + 4` vertices and
every entry of the index buffer is non-negative and strictly less than that number. -/
theorem C14_indices_in_range {α : Type} [LinearOrderedField α] (PI : α) (cos sin : α → α)
    (segments : Int) (h : 1 ≤ segments) :
    vertexCount (CreateCylinderMesh PI cos sin segments).V = 4 * segments + 4
    ∧ ∀ x ∈ (CreateCylinderMesh PI cos sin segments).I,
        0 ≤ x ∧ x < vertexCount (CreateCylinderMesh PI cos sin segments).V := by
  have hn : ((segments.toNat : Nat) : Int) = segments := Int.toNat_of_nonneg (by omega)
  have hn1 : (((segments + 1).toNat : Nat) : Int) = segments + 1 :=
    Int.toNat_of_nonneg (by omega)
  have hcount : vertexCount (CreateCylinderMesh PI cos sin segments).V = 4 * segments + 4 := by
    rw [vertexCount_of_length _ _ (length_V PI cos sin segments)]
    push_cast
    rw [hn, hn1]
    ring
  refine ⟨hcount, ?_⟩
  intro x hx
  rw [hcount]
  rw [CreateCylinderMesh_I] at hx
  simp only [List.mem_append, List.mem_flatMap, List.mem_range] at hx
  have hmod : ∀ i : Nat, 0 ≤ Int.tmod ((i : Int) + 1) segments
      ∧ Int.tmod ((i : Int) + 1) segments < segments := by
    intro i
    rw [Int.tmod_eq_emod (by omega) (by omega)]
    exact ⟨Int.emod_nonneg _ (by omega), Int.emod_lt_of_pos _ (by omega)⟩
  rcases hx with (⟨i, hi, hmem⟩ | ⟨i, hi, hmem⟩) | ⟨i, hi, hmem⟩
  · have hm := hmod i
    simp only [topCapTriangle, List.mem_cons, List.mem_singleton, List.not_mem_nil,
      or_false] at hmem
    rcases hmem with rfl | rfl | rfl <;> omega
  · have hm := hmod i
    simp only [bottomCapTriangle, List.mem_cons, List.mem_singleton, List.not_mem_nil,
      or_false] at hmem
    rcases hmem with rfl | rfl | rfl <;> omega
  · simp only [sideQuad, List.mem_cons, List.mem_singleton, List.not_mem_nil,
      or_false] at hmem
    rcases hmem with rfl | rfl | rfl | rfl | rfl | rfl <;> omega

/-- Witness of C14 at `segments = 1`, over the rationals. -/
theorem C14_indices_in_range_witness :
    (1 : Int) ≤ 1
    ∧ vertexCount (CreateCylinderMesh (3 : ℚ) id id 1).V = 4 * 1 + 4
    ∧ ∀ x ∈ (CreateCylinderMesh (3 : ℚ) id id 1).I,
        0 ≤ x ∧ x < vertexCount (CreateCylinderMesh (3 : ℚ) id id 1).V :=
  ⟨le_refl 1, C14_indices_in_range (3 : ℚ) id id 1 (le_refl 1)⟩

/-! ## Wrapping keeps the drawn orientation -/

theorem sameDirection_fmod (x : ℝ) :
    SameDirection Real.cos Real.sin (2 * Real.pi) (fmod x (2 * Real.pi)) x := by
  have e : fmod x (2 * Real.pi)
      = x - ((if 0 ≤ x / (2 * Real.pi) then ⌊x / (2 * Real.pi)⌋
          else ⌈x / (2 * Real.pi)⌉ : Int) : ℝ) * (2 * Real.pi) := rfl
  refine ⟨⟨-(if 0 ≤ x / (2 * Real.pi) then ⌊x / (2 * Real.pi)⌋
      else ⌈x / (2 * Real.pi)⌉), ?_⟩, ?_, ?_⟩
  · rw [e]; push_cast; ring
  · rw [e]; exact Real.cos_sub_int_mul_two_pi x _
  · rw [e]; exact Real.sin_sub_int_mul_two_pi x _

theorem sameDirection_add {a b : ℝ} (p : ℝ)
    (h : SameDirection Real.cos Real.sin (2 * Real.pi) a b) :
    SameDirection Real.cos Real.sin (2 * Real.pi) (a + p) (b + p) := by
  obtain ⟨⟨k, hk⟩, -, -⟩ := h
  have e : a + p = b + p + (k : ℝ) * (2 * Real.pi) := by rw [hk]; ring
  refine ⟨⟨k, e⟩, ?_, ?_⟩
  · rw [e]; exact Real.cos_add_int_mul_two_pi _ k
  · rw [e]; exact Real.sin_add_int_mul_two_pi _ k

/-- C15. For every elapsed time `t` and each of the seven gears, the angle handed to
`DrawGearTeeth` (for gear 2, `fmod(ang2, 2π) + phase2`) differs from the unwrapped value
`omega_i * t + phase_i` by an integer multiple of `2π`, and therefore has the same cosine
and sine: wrapping never changes the orientation at which a gear is drawn.  The phases are
those of the code: `0, phase2, phase2, 0, phase5, 0, phase7`. -/
theorem C15_wrap_keeps_orientation (t : ℝ) :
    SameDirection Real.cos Real.sin (2 * Real.pi)
      (drawnAngles Real.pi (2 * Real.pi) t).ang1 ((gearOmega (α := ℝ)).ang1 * t + 0)
    ∧ SameDirection Real.cos Real.sin (2 * Real.pi)
      (drawnAngles Real.pi (2 * Real.pi) t).ang2
      ((gearOmega (α := ℝ)).ang2 * t + phase2 Real.pi)
    ∧ SameDirection Real.cos Real.sin (2 * Real.pi)
      (drawnAngles Real.pi (2 * Real.pi) t).ang3
      ((gearOmega (α := ℝ)).ang3 * t + phase2 Real.pi)
    ∧ SameDirection Real.cos Real.sin (2 * Real.pi)
      (drawnAngles Real.pi (2 * Real.pi) t).ang4 ((gearOmega (α := ℝ)).ang4 * t + 0)
    ∧ SameDirection Real.cos Real.sin (2 * Real.pi)
      (drawnAngles Real.pi (2 * Real.pi) t).ang5
      ((gearOmega (α := ℝ)).ang5 * t + phase5 Real.pi)
    ∧ SameDirection Real.cos Real.sin (2 * Real.pi)
      (drawnAngles Real.pi (2 * Real.pi) t).ang6 ((gearOmega (α := ℝ)).ang6 * t + 0)
    ∧ SameDirection Real.cos Real.sin (2 * Real.pi)
      (drawnAngles Real.pi (2 * Real.pi) t).ang7
      ((gearOmega (α := ℝ)).ang7 * t + phase7 Real.pi) := by
  refine ⟨?_, ?_, ?_, ?_, ?_, ?_, ?_⟩
  · have h := sameDirection_fmod (spinAngles Real.pi t).ang1
    have e : (spinAngles Real.pi t).ang1 = (gearOmega (α := ℝ)).ang1 * t + 0 := by
      simp only [spinAngles, gearOmega]; ring
    rw [← e]
    exact h
  · have h := sameDirection_add (phase2 Real.pi)
      (sameDirection_fmod (spinAngles Real.pi t).ang2)
    exact h
  · have h := sameDirection_fmod (spinAngles Real.pi t).ang3
    exact h
  · have h := sameDirection_fmod (spinAngles Real.pi t).ang4
    have e : (spinAngles Real.pi t).ang4 = (gearOmega (α := ℝ)).ang4 * t + 0 := by
      simp only [spinAngles, gearOmega]; ring
    rw [← e]
    exact h
  · exact sameDirection_fmod (spinAngles Real.pi t).ang5
  · have h := sameDirection_fmod (spinAngles Real.pi t).ang6
    have e : (spinAngles Real.pi t).ang6 = (gearOmega (α := ℝ)).ang6 * t + 0 := by
      simp only [spinAngles, gearOmega]; ring
    rw [← e]
    exact h
  · exact sameDirection_fmod (spinAngles Real.pi t).ang7


/-! ## The star field -/

/-- C12. For every pair of angles `theta`, `phi` the star position
`(rad sin φ cos θ, rad cos φ, rad sin φ sin θ)` with `rad = 30` has Euclidean distance
exactly 30 from the origin, hence never distance 0. -/
theorem C12_star_on_sphere (theta phi : ℝ) :
    Real.sqrt ((starPosition Real.cos Real.sin theta phi).x ^ 2
        + (starPosition Real.cos Real.sin theta phi).y ^ 2
        + (starPosition Real.cos Real.sin theta phi).z ^ 2) = 30
    ∧ Real.sqrt ((starPosition Real.cos Real.sin theta phi).x ^ 2
        + (starPosition Real.cos Real.sin theta phi).y ^ 2
        + (starPosition Real.cos Real.sin theta phi).z ^ 2) ≠ 0 := by
  have hsum : (starPosition Real.cos Real.sin theta phi).x ^ 2
        + (starPosition Real.cos Real.sin theta phi).y ^ 2
        + (starPosition Real.cos Real.sin theta phi).z ^ 2 = 30 ^ 2 := by
    simp only [starPosition]
    have h1 := Real.cos_sq_add_sin_sq theta
    have h2 := Real.cos_sq_add_sin_sq phi
    norm_num
    linear_combination (900 * Real.sin phi ^ 2) * h1 + 900 * h2
  have hsqrt : Real.sqrt ((starPosition Real.cos Real.sin theta phi).x ^ 2
        + (starPosition Real.cos Real.sin theta phi).y ^ 2
        + (starPosition Real.cos Real.sin theta phi).z ^ 2) = 30 := by
    rw [hsum]
    exact Real.sqrt_sq (by norm_num)
  exact ⟨hsqrt, by rw [hsqrt]; norm_num⟩

section Colour

variable {α : Type} [LinearOrderedField α] [FloorRing α]

/-- The term `|fmod(6 hue, 2) - 1|` of the chroma formula lies in `[0, 1]` for `hue ≥ 0`. -/
theorem chroma_abs_range (hue : α) (hh : 0 ≤ hue) :
    0 ≤ |fmod (hue * 6.0) 2.0 - 1| ∧ |fmod (hue * 6.0) 2.0 - 1| ≤ 1 := by
  have h2 : (0 : α) < 2.0 := by norm_num
  have h6 : (0 : α) ≤ hue * 6.0 := mul_nonneg hh (by norm_num)
  obtain ⟨hlo, hhi⟩ := fmod_nonneg_range h2 h6
  refine ⟨abs_nonneg _, ?_⟩
  rw [abs_le]
  constructor
  · linarith
  · have e : (2.0 : α) = 2 := by norm_num
    rw [e] at hhi
    linarith

theorem starColor_range (hue : α) (hh : 0 ≤ hue) :
    (0 ≤ (starColor hue).x ∧ (starColor hue).x ≤ 1)
    ∧ (0 ≤ (starColor hue).y ∧ (starColor hue).y ≤ 1)
    ∧ (0 ≤ (starColor hue).z ∧ (starColor hue).z ≤ 1) := by
  obtain ⟨ha0, ha1⟩ := chroma_abs_range hue hh
  unfold starColor
  simp only []
  generalize |fmod (hue * 6.0) 2.0 - 1| = A at ha0 ha1 ⊢
  split_ifs <;> refine ⟨⟨?_, ?_⟩, ⟨?_, ?_⟩, ⟨?_, ?_⟩⟩ <;> norm_num <;> linarith

end Colour

/-- C13. For every hue the program can draw, `hue = k / 360` with `0 ≤ k < 360` (so
`0 ≤ hue < 1`), each of the three components `r + m`, `g + m`, `b + m` of the star colour
(with `s = 0.8`, `v = 1.0`, in exact rational arithmetic) lies within `[0, 1]`. -/
theorem C13_star_colour_in_unit_cube (k : Nat) (hk : k < 360) :
    (0 ≤ (k : ℚ) / 360.0 ∧ (k : ℚ) / 360.0 < 1)
    ∧ (0 ≤ (starColor ((k : ℚ) / 360.0)).x ∧ (starColor ((k : ℚ) / 360.0)).x ≤ 1)
    ∧ (0 ≤ (starColor ((k : ℚ) / 360.0)).y ∧ (starColor ((k : ℚ) / 360.0)).y ≤ 1)
    ∧ (0 ≤ (starColor ((k : ℚ) / 360.0)).z ∧ (starColor ((k : ℚ) / 360.0)).z ≤ 1) := by
  have h0 : (0 : ℚ) ≤ (k : ℚ) / 360.0 := div_nonneg (Nat.cast_nonneg k) (by norm_num)
  have h1 : (k : ℚ) / 360.0 < 1 := by
    rw [div_lt_one (by norm_num)]
    norm_num
    exact hk
  exact ⟨⟨h0, h1⟩, starColor_range _ h0⟩

/-- Witness of C13 at hue 180°. -/
theorem C13_star_colour_in_unit_cube_witness :
    180 < 360
    ∧ (0 ≤ (starColor (((180 : Nat) : ℚ) / 360.0)).x
        ∧ (starColor (((180 : Nat) : ℚ) / 360.0)).x ≤ 1)
    ∧ (0 ≤ (starColor (((180 : Nat) : ℚ) / 360.0)).y
        ∧ (starColor (((180 : Nat) : ℚ) / 360.0)).y ≤ 1)
    ∧ (0 ≤ (starColor (((180 : Nat) : ℚ) / 360.0)).z
        ∧ (starColor (((180 : Nat) : ℚ) / 360.0)).z ≤ 1) :=
  ⟨by decide, (C13_star_colour_in_unit_cube 180 (by decide)).2⟩


/-! ## Reading the cap vertices out of the float buffer -/

section CapVertices

variable {α : Type} [LinearOrderedField α] (PI : α) (cos sin : α → α) (segments : Int)

theorem block_top_center :
    block 8 (CreateCylinderMesh PI cos sin segments).V 0 = vtx 0 0 0.5 0 0 1 0.5 0.5 := by
  rw [CreateCylinderMesh_V,
    block_append_left 8 _ _ 0
      (by simp only [List.length_append, length_capRing, length_vtx]; omega),
    block_append_left 8 _ _ 0
      (by simp only [List.length_append, length_capRing, length_vtx]; omega),
    block_append_left 8 _ _ 0
      (by simp only [List.length_append, length_capRing, length_vtx]; omega),
    block_append_left 8 _ _ 0 (by simp only [length_vtx]; omega)]
  exact block_zero_self 8 _ rfl

theorem block_top_ring (i : Nat) (hi : i < segments.toNat) :
    block 8 (CreateCylinderMesh PI cos sin segments).V (1 + i)
      = capRingVertex PI cos sin segments 0.5 1 i := by
  rw [CreateCylinderMesh_V,
    block_append_left 8 _ _ (1 + i)
      (by simp only [List.length_append, length_capRing, length_vtx]; omega),
    block_append_left 8 _ _ (1 + i)
      (by simp only [List.length_append, length_capRing, length_vtx]; omega),
    block_append_left 8 _ _ (1 + i)
      (by simp only [List.length_append, length_capRing, length_vtx]; omega),
    block_append_right 8 _ _ 1 i (by simp only [length_vtx])]
  exact block_range_flatMap_one (capRingVertex PI cos sin segments 0.5 1) 8 (fun _ => rfl)
    _ i hi

theorem block_bottom_center :
    block 8 (CreateCylinderMesh PI cos sin segments).V (segments.toNat + 1 + 0)
      = vtx 0 0 (-0.5) 0 0 (-1) 0.5 0.5 := by
  rw [CreateCylinderMesh_V,
    block_append_left 8 _ _ (segments.toNat + 1 + 0)
      (by simp only [List.length_append, length_capRing, length_vtx]; omega),
    block_append_left 8 _ _ (segments.toNat + 1 + 0)
      (by simp only [List.length_append, length_capRing, length_vtx]; omega),
    block_append_right 8 _ _ (segments.toNat + 1) 0
      (by simp only [List.length_append, length_capRing, length_vtx]; omega)]
  exact block_zero_self 8 _ rfl

theorem block_bottom_ring (i : Nat) (hi : i < segments.toNat) :
    block 8 (CreateCylinderMesh PI cos sin segments).V (segments.toNat + 2 + i)
      = capRingVertex PI cos sin segments (-0.5) (-1) i := by
  rw [CreateCylinderMesh_V,
    block_append_left 8 _ _ (segments.toNat + 2 + i)
      (by simp only [List.length_append, length_capRing, length_vtx]; omega),
    block_append_right 8 _ _ (segments.toNat + 2) i
      (by simp only [List.length_append, length_capRing, length_vtx]; omega)]
  exact block_range_flatMap_one (capRingVertex PI cos sin segments (-0.5) (-1)) 8
    (fun _ => rfl) _ i hi

theorem attributes_of_block (V : List α) (k : Int) (x y z nx ny nz u v : α)
    (h : block 8 V k.toNat = vtx x y z nx ny nz u v) :
    positionAt V k = ⟨x, y, z⟩ ∧ normalAt V k = ⟨nx, ny, nz⟩ := by
  unfold positionAt normalAt
  rw [h]
  exact ⟨rfl, rfl⟩

end CapVertices


/-! ## Winding of the cylinder triangles -/

/-- Consecutive ring directions turn counter-clockwise by `2π / segments`, an angle strictly
between `0` and `π` when `segments ≥ 3`. -/
theorem ring_step_pos (segments : Int) (h : 3 ≤ segments) (i : Nat) :
    0 < Real.cos ((i : ℝ) / (segments : ℝ) * 2 * Real.pi)
          * Real.sin (((i + 1 : Nat) : ℝ) / (segments : ℝ) * 2 * Real.pi)
        - Real.sin ((i : ℝ) / (segments : ℝ) * 2 * Real.pi)
          * Real.cos (((i + 1 : Nat) : ℝ) / (segments : ℝ) * 2 * Real.pi) := by
  have hs3 : (3 : ℝ) ≤ (segments : ℝ) := by exact_mod_cast h
  have hs : (0 : ℝ) < (segments : ℝ) := by linarith
  have hpi := Real.pi_pos
  have e : ((i + 1 : Nat) : ℝ) / (segments : ℝ) * 2 * Real.pi
      = (i : ℝ) / (segments : ℝ) * 2 * Real.pi + 2 * Real.pi / (segments : ℝ) := by
    push_cast
    field_simp
    ring
  have hpos : 0 < 2 * Real.pi / (segments : ℝ) := by positivity
  have hlt : 2 * Real.pi / (segments : ℝ) < Real.pi := by
    rw [div_lt_iff₀ hs]
    nlinarith
  have hsin := Real.sin_pos_of_pos_of_lt_pi hpos hlt
  have key : Real.sin (2 * Real.pi / (segments : ℝ))
      = Real.cos ((i : ℝ) / (segments : ℝ) * 2 * Real.pi)
          * Real.sin (((i + 1 : Nat) : ℝ) / (segments : ℝ) * 2 * Real.pi)
        - Real.sin ((i : ℝ) / (segments : ℝ) * 2 * Real.pi)
          * Real.cos (((i + 1 : Nat) : ℝ) / (segments : ℝ) * 2 * Real.pi) := by
    rw [e, Real.sin_add, Real.cos_add]
    have h1 := Real.cos_sq_add_sin_sq ((i : ℝ) / (segments : ℝ) * 2 * Real.pi)
    linear_combination (-Real.sin (2 * Real.pi / (segments : ℝ))) * h1
  rw [← key]
  exact hsin

/-- The ring vertex reached by the index `(i + 1) % segments` points in the direction of
the angle of column `i + 1`: at the seam, the angles `0` and `2π` have the same cosine and
sine. -/
theorem ring_wrap (segments : Int) (h : 3 ≤ segments) (i : Nat) (hi : i < segments.toNat) :
    Real.cos ((((i + 1) % segments.toNat : Nat) : ℝ) / (segments : ℝ) * 2 * Real.pi)
        = Real.cos (((i + 1 : Nat) : ℝ) / (segments : ℝ) * 2 * Real.pi)
    ∧ Real.sin ((((i + 1) % segments.toNat : Nat) : ℝ) / (segments : ℝ) * 2 * Real.pi)
        = Real.sin (((i + 1 : Nat) : ℝ) / (segments : ℝ) * 2 * Real.pi) := by
  have hn : ((segments.toNat : Nat) : Int) = segments := Int.toNat_of_nonneg (by omega)
  have hcast : ((segments.toNat : Nat) : ℝ) = (segments : ℝ) := by
    rw [← Int.cast_natCast, hn]
  have hseg : (segments : ℝ) ≠ 0 := by
    have : (0 : ℝ) < (segments : ℝ) := by exact_mod_cast (by omega : (0 : Int) < segments)
    exact this.ne'
  rcases Nat.lt_or_ge (i + 1) segments.toNat with hlt | hge
  · rw [Nat.mod_eq_of_lt hlt]
    exact ⟨rfl, rfl⟩
  · have heq : i + 1 = segments.toNat := by omega
    rw [heq, Nat.mod_self, hcast, div_self hseg]
    simp

section Attributes

variable {α : Type} [LinearOrderedField α] (PI : α) (cos sin : α → α) (segments : Int)

theorem attrs_top_center :
    positionAt (CreateCylinderMesh PI cos sin segments).V 0 = ⟨0, 0, 0.5⟩
    ∧ normalAt (CreateCylinderMesh PI cos sin segments).V 0 = ⟨0, 0, 1⟩ :=
  attributes_of_block _ 0 _ _ _ _ _ _ _ _ (block_top_center PI cos sin segments)

theorem attrs_top_ring (j : Nat) (hj : j < segments.toNat) (k : Int)
    (hk : k = 1 + (j : Int)) :
    positionAt (CreateCylinderMesh PI cos sin segments).V k
      = ⟨cos ((j : α) / (segments : α) * 2 * PI), sin ((j : α) / (segments : α) * 2 * PI), 0.5⟩
    ∧ normalAt (CreateCylinderMesh PI cos sin segments).V k = ⟨0, 0, 1⟩ := by
  have e : k.toNat = 1 + j := by omega
  refine attributes_of_block _ k _ _ _ _ _ _
    (cos ((j : α) / (segments : α) * 2 * PI) * 0.5 + 0.5)
    (sin ((j : α) / (segments : α) * 2 * PI) * 0.5 + 0.5) ?_
  rw [e]
  exact block_top_ring PI cos sin segments j hj

theorem attrs_bottom_center (k : Int) (hk : k = (segments.toNat : Int) + 1) :
    positionAt (CreateCylinderMesh PI cos sin segments).V k = ⟨0, 0, -0.5⟩
    ∧ normalAt (CreateCylinderMesh PI cos sin segments).V k = ⟨0, 0, -1⟩ := by
  have e : k.toNat = segments.toNat + 1 + 0 := by omega
  refine attributes_of_block _ k _ _ _ _ _ _ 0.5 0.5 ?_
  rw [e]
  exact block_bottom_center PI cos sin segments

theorem attrs_bottom_ring (j : Nat) (hj : j < segments.toNat) (k : Int)
    (hk : k = (segments.toNat : Int) + 2 + (j : Int)) :
    positionAt (CreateCylinderMesh PI cos sin segments).V k
      = ⟨cos ((j : α) / (segments : α) * 2 * PI), sin ((j : α) / (segments : α) * 2 * PI),
          -0.5⟩
    ∧ normalAt (CreateCylinderMesh PI cos sin segments).V k = ⟨0, 0, -1⟩ := by
  have e : k.toNat = segments.toNat + 2 + j := by omega
  refine attributes_of_block _ k _ _ _ _ _ _
    (cos ((j : α) / (segments : α) * 2 * PI) * 0.5 + 0.5)
    (sin ((j : α) / (segments : α) * 2 * PI) * 0.5 + 0.5) ?_
  rw [e]
  exact block_bottom_ring PI cos sin segments j hj

theorem attrs_side_top (j : Nat) (hj : j < (segments + 1).toNat) (k : Int)
    (hk : k = 2 * (segments.toNat : Int) + 2 + 2 * (j : Int)) :
    positionAt (CreateCylinderMesh PI cos sin segments).V k
      = ⟨cos ((j : α) / (segments : α) * 2 * PI), sin ((j : α) / (segments : α) * 2 * PI), 0.5⟩
    ∧ normalAt (CreateCylinderMesh PI cos sin segments).V k
      = ⟨cos ((j : α) / (segments : α) * 2 * PI), sin ((j : α) / (segments : α) * 2 * PI), 0⟩ := by
  have e : k.toNat = 2 * segments.toNat + 2 + 2 * j := by omega
  refine attributes_of_block _ k _ _ _ _ _ _ ((j : α) / (segments : α)) 1.0 ?_
  rw [e]
  exact block_side_top PI cos sin segments j hj

theorem attrs_side_bottom (j : Nat) (hj : j < (segments + 1).toNat) (k : Int)
    (hk : k = 2 * (segments.toNat : Int) + 2 + 2 * (j : Int) + 1) :
    positionAt (CreateCylinderMesh PI cos sin segments).V k
      = ⟨cos ((j : α) / (segments : α) * 2 * PI), sin ((j : α) / (segments : α) * 2 * PI),
          -0.5⟩
    ∧ normalAt (CreateCylinderMesh PI cos sin segments).V k
      = ⟨cos ((j : α) / (segments : α) * 2 * PI), sin ((j : α) / (segments : α) * 2 * PI), 0⟩ := by
  have e : k.toNat = 2 * segments.toNat + 2 + 2 * j + 1 := by omega
  refine attributes_of_block _ k _ _ _ _ _ _ ((j : α) / (segments : α)) 0.0 ?_
  rw [e]
  exact block_side_bottom PI cos sin segments j hj

theorem tmod_succ_eq (h : 3 ≤ segments) (i : Nat) :
    Int.tmod ((i : Int) + 1) segments = (((i + 1) % segments.toNat : Nat) : Int) := by
  have hn : ((segments.toNat : Nat) : Int) = segments := Int.toNat_of_nonneg (by omega)
  rw [Int.tmod_eq_emod (by omega) (by omega), Int.natCast_mod, hn]
  push_cast
  rfl

end Attributes

/-- The two triangles of side quad `i` in the index buffer. -/
theorem block_side_triangles {α : Type} [LinearOrderedField α] (PI : α) (cos sin : α → α)
    (segments : Int) (i : Nat) (hi : i < segments.toNat) :
    block 3 (CreateCylinderMesh PI cos sin segments).I (2 * segments.toNat + (2 * i + 0))
      = [2 * (segments.toNat : Int) + 2 + (i : Int) * 2,
         2 * (segments.toNat : Int) + 2 + (i : Int) * 2 + 1,
         2 * (segments.toNat : Int) + 2 + ((i : Int) + 1) * 2]
    ∧ block 3 (CreateCylinderMesh PI cos sin segments).I (2 * segments.toNat + (2 * i + 1))
      = [2 * (segments.toNat : Int) + 2 + ((i : Int) + 1) * 2,
         2 * (segments.toNat : Int) + 2 + (i : Int) * 2 + 1,
         2 * (segments.toNat : Int) + 2 + ((i : Int) + 1) * 2 + 1] := by
  have hA : ((List.range segments.toNat).flatMap (topCapTriangle segments)
      ++ (List.range segments.toNat).flatMap (bottomCapTriangle segments)).length
      = 3 * (2 * segments.toNat) := by
    rw [List.length_append,
      length_flatMap_const (topCapTriangle segments) 3 (fun _ => rfl),
      length_flatMap_const (bottomCapTriangle segments) 3 (fun _ => rfl), List.length_range]
    omega
  rw [CreateCylinderMesh_I]
  constructor
  · rw [block_append_right 3 _ _ (2 * segments.toNat) (2 * i + 0) hA,
      block_range_flatMap (sideQuad segments) 3 2 (fun _ => rfl) _ i 0 hi (by decide)]
    rfl
  · rw [block_append_right 3 _ _ (2 * segments.toNat) (2 * i + 1) hA,
      block_range_flatMap (sideQuad segments) 3 2 (fun _ => rfl) _ i 1 hi (by decide)]
    rfl


/-- Triangles `i` and `segments + i` of the index buffer are the index triples pushed by
iteration `i` of the two cap loops. -/
theorem block_cap_triangles {α : Type} [LinearOrderedField α] (PI : α) (cos sin : α → α)
    (segments : Int) (i : Nat) (hi : i < segments.toNat) :
    block 3 (CreateCylinderMesh PI cos sin segments).I i = topCapTriangle segments i
    ∧ block 3 (CreateCylinderMesh PI cos sin segments).I (segments.toNat + i)
      = bottomCapTriangle segments i := by
  have hA : ((List.range segments.toNat).flatMap (topCapTriangle segments)).length
      = 3 * segments.toNat := by
    rw [length_flatMap_const (topCapTriangle segments) 3 (fun _ => rfl), List.length_range]
  have hB : ((List.range segments.toNat).flatMap (bottomCapTriangle segments)).length
      = 3 * segments.toNat := by
    rw [length_flatMap_const (bottomCapTriangle segments) 3 (fun _ => rfl), List.length_range]
  rw [CreateCylinderMesh_I]
  constructor
  · rw [block_append_left 3 _ _ i (by rw [List.length_append, hA, hB]; omega),
      block_append_left 3 _ _ i (by rw [hA]; omega),
      block_range_flatMap_one (topCapTriangle segments) 3 (fun _ => rfl) _ i hi]
  · rw [block_append_left 3 _ _ (segments.toNat + i)
        (by rw [List.length_append, hA, hB]; omega),
      block_append_right 3 _ _ segments.toNat i hA,
      block_range_flatMap_one (bottomCapTriangle segments) 3 (fun _ => rfl) _ i hi]

theorem top_triangle_faces (segments : Int) (h : 3 ≤ segments) (i : Nat)
    (hi : i < segments.toNat) :
    FacesOutward (CreateCylinderMesh Real.pi Real.cos Real.sin segments).V
        0 (1 + (i : Int)) (1 + Int.tmod ((i : Int) + 1) segments)
    ∧ normalAt (CreateCylinderMesh Real.pi Real.cos Real.sin segments).V 0 = ⟨0, 0, 1⟩
    ∧ normalAt (CreateCylinderMesh Real.pi Real.cos Real.sin segments).V (1 + (i : Int))
        = ⟨0, 0, 1⟩
    ∧ normalAt (CreateCylinderMesh Real.pi Real.cos Real.sin segments).V
        (1 + Int.tmod ((i : Int) + 1) segments) = ⟨0, 0, 1⟩ := by
  have hmodlt : (i + 1) % segments.toNat < segments.toNat := Nat.mod_lt _ (by omega)
  obtain ⟨p0, n0⟩ := attrs_top_center Real.pi Real.cos Real.sin segments
  obtain ⟨p1, n1⟩ := attrs_top_ring Real.pi Real.cos Real.sin segments i hi _ rfl
  obtain ⟨p2, n2⟩ := attrs_top_ring Real.pi Real.cos Real.sin segments
    ((i + 1) % segments.toNat) hmodlt (1 + Int.tmod ((i : Int) + 1) segments)
    (by rw [tmod_succ_eq segments h i])
  obtain ⟨wc, ws⟩ := ring_wrap segments h i hi
  have hpos := ring_step_pos segments h i
  refine ⟨?_, n0, n1, n2⟩
  unfold FacesOutward
  rw [p0, p1, p2, n0, n1, n2, wc, ws]
  simp only [faceNormal, Vec3.sub, Vec3.cross, Vec3.dot]
  generalize Real.cos ((i : ℝ) / (segments : ℝ) * 2 * Real.pi) = c0 at hpos ⊢
  generalize Real.sin ((i : ℝ) / (segments : ℝ) * 2 * Real.pi) = s0 at hpos ⊢
  generalize Real.cos (((i + 1 : Nat) : ℝ) / (segments : ℝ) * 2 * Real.pi) = c1 at hpos ⊢
  generalize Real.sin (((i + 1 : Nat) : ℝ) / (segments : ℝ) * 2 * Real.pi) = s1 at hpos ⊢
  refine ⟨?_, ?_, ?_⟩ <;> norm_num <;> linarith

theorem bottom_triangle_faces (segments : Int) (h : 3 ≤ segments) (i : Nat)
    (hi : i < segments.toNat) :
    FacesOutward (CreateCylinderMesh Real.pi Real.cos Real.sin segments).V
        ((segments.toNat : Int) + 1)
        ((segments.toNat : Int) + 2 + Int.tmod ((i : Int) + 1) segments)
        ((segments.toNat : Int) + 2 + (i : Int))
    ∧ normalAt (CreateCylinderMesh Real.pi Real.cos Real.sin segments).V
        ((segments.toNat : Int) + 1) = ⟨0, 0, -1⟩
    ∧ normalAt (CreateCylinderMesh Real.pi Real.cos Real.sin segments).V
        ((segments.toNat : Int) + 2 + Int.tmod ((i : Int) + 1) segments) = ⟨0, 0, -1⟩
    ∧ normalAt (CreateCylinderMesh Real.pi Real.cos Real.sin segments).V
        ((segments.toNat : Int) + 2 + (i : Int)) = ⟨0, 0, -1⟩ := by
  have hmodlt : (i + 1) % segments.toNat < segments.toNat := Nat.mod_lt _ (by omega)
  obtain ⟨p0, n0⟩ := attrs_bottom_center Real.pi Real.cos Real.sin segments _ rfl
  obtain ⟨p1, n1⟩ := attrs_bottom_ring Real.pi Real.cos Real.sin segments
    ((i + 1) % segments.toNat) hmodlt
    ((segments.toNat : Int) + 2 + Int.tmod ((i : Int) + 1) segments)
    (by rw [tmod_succ_eq segments h i])
  obtain ⟨p2, n2⟩ := attrs_bottom_ring Real.pi Real.cos Real.sin segments i hi _ rfl
  obtain ⟨wc, ws⟩ := ring_wrap segments h i hi
  have hpos := ring_step_pos segments h i
  refine ⟨?_, n0, n1, n2⟩
  unfold FacesOutward
  rw [p0, p1, p2, n0, n1, n2, wc, ws]
  simp only [faceNormal, Vec3.sub, Vec3.cross, Vec3.dot]
  generalize Real.cos ((i : ℝ) / (segments : ℝ) * 2 * Real.pi) = c0 at hpos ⊢
  generalize Real.sin ((i : ℝ) / (segments : ℝ) * 2 * Real.pi) = s0 at hpos ⊢
  generalize Real.cos (((i + 1 : Nat) : ℝ) / (segments : ℝ) * 2 * Real.pi) = c1 at hpos ⊢
  generalize Real.sin (((i + 1 : Nat) : ℝ) / (segments : ℝ) * 2 * Real.pi) = s1 at hpos ⊢
  refine ⟨?_, ?_, ?_⟩ <;> norm_num <;> linarith

theorem side_triangles_face (segments : Int) (h : 3 ≤ segments) (i : Nat)
    (hi : i < segments.toNat) :
    FacesOutward (CreateCylinderMesh Real.pi Real.cos Real.sin segments).V
        (2 * (segments.toNat : Int) + 2 + (i : Int) * 2)
        (2 * (segments.toNat : Int) + 2 + (i : Int) * 2 + 1)
        (2 * (segments.toNat : Int) + 2 + ((i : Int) + 1) * 2)
    ∧ FacesOutward (CreateCylinderMesh Real.pi Real.cos Real.sin segments).V
        (2 * (segments.toNat : Int) + 2 + ((i : Int) + 1) * 2)
        (2 * (segments.toNat : Int) + 2 + (i : Int) * 2 + 1)
        (2 * (segments.toNat : Int) + 2 + ((i : Int) + 1) * 2 + 1) := by
  obtain ⟨pt0, nt0⟩ := attrs_side_top Real.pi Real.cos Real.sin segments i (by omega)
    (2 * (segments.toNat : Int) + 2 + (i : Int) * 2) (by ring)
  obtain ⟨pb0, nb0⟩ := attrs_side_bottom Real.pi Real.cos Real.sin segments i (by omega)
    (2 * (segments.toNat : Int) + 2 + (i : Int) * 2 + 1) (by ring)
  obtain ⟨pt1, nt1⟩ := attrs_side_top Real.pi Real.cos Real.sin segments (i + 1) (by omega)
    (2 * (segments.toNat : Int) + 2 + ((i : Int) + 1) * 2) (by push_cast; ring)
  obtain ⟨pb1, nb1⟩ := attrs_side_bottom Real.pi Real.cos Real.sin segments (i + 1)
    (by omega) (2 * (segments.toNat : Int) + 2 + ((i : Int) + 1) * 2 + 1)
    (by push_cast; ring)
  have hpos := ring_step_pos segments h i
  unfold FacesOutward
  rw [pt0, pb0, pt1, pb1, nt0, nb0, nt1, nb1]
  simp only [faceNormal, Vec3.sub, Vec3.cross, Vec3.dot]
  generalize Real.cos ((i : ℝ) / (segments : ℝ) * 2 * Real.pi) = c0 at hpos ⊢
  generalize Real.sin ((i : ℝ) / (segments : ℝ) * 2 * Real.pi) = s0 at hpos ⊢
  generalize Real.cos (((i + 1 : Nat) : ℝ) / (segments : ℝ) * 2 * Real.pi) = c1 at hpos ⊢
  generalize Real.sin (((i + 1 : Nat) : ℝ) / (segments : ℝ) * 2 * Real.pi) = s1 at hpos ⊢
  refine ⟨⟨?_, ?_, ?_⟩, ⟨?_, ?_, ?_⟩⟩ <;> norm_num <;> linarith

/-- The stored normal of every side-wall vertex is radial: it is the position with its
`z` component dropped. -/
theorem side_normal_radial (segments : Int) (j : Nat) (hj : j < (segments + 1).toNat)
    (k : Int)
    (hk : k = 2 * (segments.toNat : Int) + 2 + 2 * (j : Int)
      ∨ k = 2 * (segments.toNat : Int) + 2 + 2 * (j : Int) + 1) :
    normalAt (CreateCylinderMesh Real.pi Real.cos Real.sin segments).V k
      = ⟨(positionAt (CreateCylinderMesh Real.pi Real.cos Real.sin segments).V k).x,
         (positionAt (CreateCylinderMesh Real.pi Real.cos Real.sin segments).V k).y, 0⟩ := by
  rcases hk with hk | hk
  · obtain ⟨p, n⟩ := attrs_side_top Real.pi Real.cos Real.sin segments j hj k hk
    rw [p, n]
  · obtain ⟨p, n⟩ := attrs_side_bottom Real.pi Real.cos Real.sin segments j hj k hk
    rw [p, n]


/-- C11. For every `segments ≥ 3` and every triangle `t` of the index buffer (there are
`4 * segments`: top cap, bottom cap, side wall), the right-hand-rule face normal
`(p1 - p0) × (p2 - p0)` of its three positions has a strictly positive dot product with the
stored normal of each of its three vertices.  The stored normals are `+z` for the top-cap
triangles, `-z` for the bottom-cap triangles and the radial direction (the position without
its `z` component) for the side triangles, so these face up, down and radially outward. -/
theorem C11_outward_winding (segments : Int) (h : 3 ≤ segments) (t : Nat)
    (ht : (t : Int) < 4 * segments) :
    ∃ i0 i1 i2 : Int,
      block 3 (CreateCylinderMesh Real.pi Real.cos Real.sin segments).I t = [i0, i1, i2]
      ∧ FacesOutward (CreateCylinderMesh Real.pi Real.cos Real.sin segments).V i0 i1 i2
      ∧ (t < segments.toNat → ∀ k ∈ [i0, i1, i2],
          normalAt (CreateCylinderMesh Real.pi Real.cos Real.sin segments).V k = ⟨0, 0, 1⟩)
      ∧ (segments.toNat ≤ t ∧ t < 2 * segments.toNat → ∀ k ∈ [i0, i1, i2],
          normalAt (CreateCylinderMesh Real.pi Real.cos Real.sin segments).V k = ⟨0, 0, -1⟩)
      ∧ (2 * segments.toNat ≤ t → ∀ k ∈ [i0, i1, i2],
          normalAt (CreateCylinderMesh Real.pi Real.cos Real.sin segments).V k
            = ⟨(positionAt (CreateCylinderMesh Real.pi Real.cos Real.sin segments).V k).x,
               (positionAt (CreateCylinderMesh Real.pi Real.cos Real.sin segments).V k).y,
               0⟩) := by
  have hn : ((segments.toNat : Nat) : Int) = segments := Int.toNat_of_nonneg (by omega)
  rcases Nat.lt_or_ge t segments.toNat with h1 | h1
  · -- top cap
    obtain ⟨hf, n0, n1, n2⟩ := top_triangle_faces segments h t h1
    refine ⟨_, _, _, (block_cap_triangles Real.pi Real.cos Real.sin segments t h1).1, hf,
      ?_, ?_, ?_⟩
    · intro _ k hk
      simp only [List.mem_cons, List.mem_singleton, List.not_mem_nil, or_false] at hk
      rcases hk with rfl | rfl | rfl
      · exact n0
      · exact n1
      · exact n2
    · intro hc; omega
    · intro hc; omega
  · rcases Nat.lt_or_ge t (2 * segments.toNat) with h2 | h2
    · -- bottom cap
      have hi : t - segments.toNat < segments.toNat := by omega
      have et : t = segments.toNat + (t - segments.toNat) := by omega
      obtain ⟨hf, n0, n1, n2⟩ := bottom_triangle_faces segments h (t - segments.toNat) hi
      have hb := (block_cap_triangles Real.pi Real.cos Real.sin segments
        (t - segments.toNat) hi).2
      rw [← et] at hb
      refine ⟨_, _, _, hb, hf, ?_, ?_, ?_⟩
      · intro hc; omega
      · intro _ k hk
        simp only [List.mem_cons, List.mem_singleton, List.not_mem_nil, or_false] at hk
        rcases hk with rfl | rfl | rfl
        · exact n0
        · exact n1
        · exact n2
      · intro hc; omega
    · -- side wall
      have hi : (t - 2 * segments.toNat) / 2 < segments.toNat := by omega
      obtain ⟨hf0, hf1⟩ := side_triangles_face segments h ((t - 2 * segments.toNat) / 2) hi
      obtain ⟨hb0, hb1⟩ := block_side_triangles Real.pi Real.cos Real.sin segments
        ((t - 2 * segments.toNat) / 2) hi
      have hrad := fun (j : Nat) (hj : j < (segments + 1).toNat) (k : Int) hk =>
        side_normal_radial segments j hj k hk
      rcases Nat.mod_two_eq_zero_or_one (t - 2 * segments.toNat) with hpar | hpar
      · have et : t = 2 * segments.toNat + (2 * ((t - 2 * segments.toNat) / 2) + 0) := by
          omega
        rw [← et] at hb0
        refine ⟨_, _, _, hb0, hf0, ?_, ?_, ?_⟩
        · intro hc; omega
        · intro hc; omega
        · intro _ k hk
          simp only [List.mem_cons, List.mem_singleton, List.not_mem_nil, or_false] at hk
          rcases hk with rfl | rfl | rfl
          · exact hrad ((t - 2 * segments.toNat) / 2) (by omega) _ (Or.inl (by ring))
          · exact hrad ((t - 2 * segments.toNat) / 2) (by omega) _ (Or.inr (by ring))
          · exact hrad ((t - 2 * segments.toNat) / 2 + 1) (by omega) _
              (Or.inl (by push_cast; ring))
      · have et : t = 2 * segments.toNat + (2 * ((t - 2 * segments.toNat) / 2) + 1) := by
          omega
        rw [← et] at hb1
        refine ⟨_, _, _, hb1, hf1, ?_, ?_, ?_⟩
        · intro hc; omega
        · intro hc; omega
        · intro _ k hk
          simp only [List.mem_cons, List.mem_singleton, List.not_mem_nil, or_false] at hk
          rcases hk with rfl | rfl | rfl
          · exact hrad ((t - 2 * segments.toNat) / 2 + 1) (by omega) _
              (Or.inl (by push_cast; ring))
          · exact hrad ((t - 2 * segments.toNat) / 2) (by omega) _ (Or.inr (by ring))
          · exact hrad ((t - 2 * segments.toNat) / 2 + 1) (by omega) _
              (Or.inr (by push_cast; ring))

/-- Witness of C11: the first top-cap triangle of the cylinder with 3 segments. -/
theorem C11_outward_winding_witness :
    (3 : Int) ≤ 3 ∧ ((0 : Nat) : Int) < 4 * 3
    ∧ ∃ i0 i1 i2 : Int,
      block 3 (CreateCylinderMesh Real.pi Real.cos Real.sin 3).I 0 = [i0, i1, i2]
      ∧ FacesOutward (CreateCylinderMesh Real.pi Real.cos Real.sin 3).V i0 i1 i2 :=
  ⟨by decide, by decide,
    (C11_outward_winding 3 (by decide) 0 (by decide)).elim fun i0 hx =>
      hx.elim fun i1 hy => hy.elim fun i2 hz => ⟨i0, i1, i2, hz.1, hz.2.1⟩⟩


end GearScene
